import Mathlib

/-!
Verification of the PicoBoot firmware-generation core: a shallow embedding of
the DOL parser/validator, the boot-ROM LFSR scrambler, the IPLBOOT payload
wrapper, the UF2 encoder and the UF2 merger, with proofs of the specified
properties.  Byte buffers are modelled as `List Nat` (each element a byte
value), machine 32-bit reads/writes as arithmetic with explicit `% 2 ^ 32`
truncation where the JavaScript `DataView` operations truncate.
-/

/-! ## Byte-level helpers -/

/-- The 4 bytes written by `DataView.setUint32(_, n, true)` (little-endian);
`setUint32` truncates to 32 bits, which the `% 256` on the top byte realises. -/
def le32 (n : Nat) : List Nat :=
  [n % 256, n / 256 % 256, n / 65536 % 256, n / 16777216 % 256]

/-- The 4 bytes written by `DataView.setUint32(_, n, false)` (big-endian). -/
def be32 (n : Nat) : List Nat :=
  [n / 16777216 % 256, n / 65536 % 256, n / 256 % 256, n % 256]

/-- Value of a 4-byte little-endian word found at the head of a list. -/
def decodeLE4 (l : List Nat) : Nat :=
  l.getD 0 0 + 256 * l.getD 1 0 + 65536 * l.getD 2 0 + 16777216 * l.getD 3 0

/-- Little-endian 32-bit read at offset `o`, as in `DataView.getUint32(o, true)`. -/
def readLE32 (l : List Nat) (o : Nat) : Nat :=
  decodeLE4 (l.drop o)

/-- Big-endian 32-bit read at offset `o`, as in `DataView.getUint32(o, false)`. -/
def readBE32 (l : List Nat) (o : Nat) : Nat :=
  16777216 * l.getD o 0 + 65536 * l.getD (o + 1) 0 + 256 * l.getD (o + 2) 0
    + l.getD (o + 3) 0

/-! ## Scrambler (`src/lib/firmware/scrambler.ts`)

The source processes the buffer bit by bit with three LFSRs `t`, `u`, `v`,
an output bit `x` and an 8-bit accumulator `acc`; every 8 bits it XORs the
accumulator into the current byte and advances.  `bitStep` is one iteration
of the `while` loop minus the byte-advance bookkeeping (`nacc`/`it`), which
is realised by grouping 8 `bitStep`s per input byte in `scrambleCore`. -/

structure ScramblerState where
  t : Nat
  u : Nat
  v : Nat
  x : Nat
  acc : Nat
deriving DecidableEq

def bitStep (s : ScramblerState) : ScramblerState :=
  let t0 := s.t % 2
  let t1 := s.t / 2 % 2
  let u0 := s.u % 2
  let u1 := s.u / 2 % 2
  let v0 := s.v % 2
  let x := s.x ^^^ t1 ^^^ v0
  let x := x ^^^ (u0 ||| u1)
  let x := x ^^^ ((t0 ^^^ u1 ^^^ v0) &&& (t0 ^^^ u0))
  let v := if t0 = u0 then (if v0 = 1 then s.v / 2 ^^^ 0xB3D0 else s.v / 2) else s.v
  let u := if t0 = 0 then (if u0 = 1 then s.u / 2 ^^^ 0xFB10 else s.u / 2) else s.u
  let t := if t0 = 1 then s.t / 2 ^^^ 0xA740 else s.t / 2
  { t := t, u := u, v := v, x := x, acc := (s.acc * 2 + x) % 256 }

/-- The register state after consuming one full byte (8 loop iterations). -/
def byteStep (s : ScramblerState) : ScramblerState := bitStep^[8] s

/-- The loop of `applyShiftRegisterScrambling` from the source: each byte of the buffer is
XORed with the accumulator value reached after its 8 bit iterations; the
register state carries over from byte to byte. -/
def scrambleCore : ScramblerState → List Nat → List Nat
  | _, [] => []
  | s, b :: rest =>
      let s' := byteStep s
      (b ^^^ s'.acc) :: scrambleCore s' rest

def initialScramblerState : ScramblerState :=
  { t := 0x2953, u := 0xD9C2, v := 0x3FF1, x := 1, acc := 0 }

/-- Number of zero bytes prepended for register initialization. -/
def PREPEND_SIZE : Nat := 0x720

/-- Function `scramble` from the source: prepend `0x720` zero bytes, run the shift
register transform, drop the prepended prefix. -/
def scramble (data : List Nat) : List Nat :=
  (scrambleCore initialScramblerState (List.replicate PREPEND_SIZE 0 ++ data)).drop
    PREPEND_SIZE

/-! ## Payload wrapper (`src/lib/firmware/payload-wrapper.ts`) -/

structure WrappedPayload where
  header : List Nat
  payload : List Nat
  totalSize : Nat
deriving DecidableEq

/-- Size in bytes of the notional full IPLBOOT header used by the upstream
tool; only 12 bytes are emitted but the size field adds this constant. -/
def IPLBOOT_HEADER_SIZE : Nat := 32

def iplbootMagic : List Nat := [0x49, 0x50, 0x4C, 0x42, 0x4F, 0x4F, 0x54, 0x20]

/-- Header builder `createIPLBOOTHeader`: the ASCII bytes of `IPLBOOT ` followed by the
size as a big-endian 32-bit value. -/
def createIPLBOOTHeader (size : Nat) : List Nat :=
  iplbootMagic ++ be32 size

/-- Function `wrapPayload`: scramble, zero-pad the scrambled bytes to a 4-byte
multiple, append the ASCII `PICO` trailer, and prepend the IPLBOOT header
whose size field is the body length plus the notional 32-byte header. -/
def wrapPayload (data : List Nat) : WrappedPayload :=
  let scrambled := scramble data
  let alignedSize := (scrambled.length + 3) / 4 * 4
  let withSignature :=
    scrambled ++ (List.replicate (alignedSize - scrambled.length) 0 ++
      [0x50, 0x49, 0x43, 0x4F])
  let totalImageSize := withSignature.length + IPLBOOT_HEADER_SIZE
  let header := createIPLBOOTHeader totalImageSize
  { header := header
    payload := withSignature
    totalSize := header.length + withSignature.length }

/-- Alignment to the next multiple of 4, i.e. `Math.ceil(n / 4) * 4` on naturals. -/
def roundUp4 (n : Nat) : Nat := (n + 3) / 4 * 4

/-! ## UF2 merger (`src/lib/firmware/uf2-merger.ts`) -/

structure UF2Block where
  magicStart0 : Nat
  magicStart1 : Nat
  flags : Nat
  targetAddr : Nat
  payloadSize : Nat
  blockNo : Nat
  numBlocks : Nat
  familyID : Nat
  data : List Nat
  magicEnd : Nat
deriving DecidableEq

structure MergeResult where
  data : List Nat
  totalBlocks : Nat
  baseBlocks : Nat
  payloadBlocks : Nat
deriving DecidableEq

/-- One constructor per `throw` site of the merger; each carries the numeric
fields cited in the corresponding message. -/
inductive MergeError
  | badLength (got : Nat)
  | badBlockSize (got : Nat)
  | badMagic
  | memoryOverlap (baseStart baseEnd payloadStart payloadEnd : Nat)
  | baseOutsideFlash (baseStart : Nat)
  | payloadBeforeBaseEnd (payloadStart baseEnd : Nat)
deriving DecidableEq

def BLOCK_SIZE : Nat := 512
def UF2_PAYLOAD_SIZE : Nat := 256
def FLASH_BASE : Nat := 0x10000000
def FLASH_SIZE : Nat := 0x00080000
def PAYLOAD_BASE : Nat := 0x10080000
def PAYLOAD_REGION_SIZE : Nat := 0x00180000

/-- Function `parseBlock`: decode the 512-byte block layout (little-endian fields,
256-byte data region at offset 32) and reject bad magic numbers. -/
def parseBlock (blockData : List Nat) : Except MergeError UF2Block :=
  if blockData.length ≠ 512 then .error (.badBlockSize blockData.length)
  else
    let magicStart0 := readLE32 blockData 0
    let magicStart1 := readLE32 blockData 4
    let flags := readLE32 blockData 8
    let targetAddr := readLE32 blockData 12
    let payloadSize := readLE32 blockData 16
    let blockNo := readLE32 blockData 20
    let numBlocks := readLE32 blockData 24
    let familyID := readLE32 blockData 28
    let data := (blockData.drop 32).take 256
    let magicEnd := readLE32 blockData 508
    if magicStart0 ≠ 0x0A324655 ∨ magicStart1 ≠ 0x9E5D5157 ∨ magicEnd ≠ 0x0AB16F30
    then .error .badMagic
    else .ok
      { magicStart0 := magicStart0
        magicStart1 := magicStart1
        flags := flags
        targetAddr := targetAddr
        payloadSize := payloadSize
        blockNo := blockNo
        numBlocks := numBlocks
        familyID := familyID
        data := data
        magicEnd := magicEnd }

/-- The parsing loop of `parseUF2Blocks`: the source iterates over
`blockCount = byteLength / 512` indices, slicing one 512-byte chunk each. -/
def parseChunks : Nat → List Nat → Except MergeError (List UF2Block)
  | 0, _ => .ok []
  | blockCount + 1, uf2Data => do
    let b ← parseBlock (uf2Data.take 512)
    let rest ← parseChunks blockCount (uf2Data.drop 512)
    .ok (b :: rest)

/-- Function `parseUF2Blocks`: reject data whose length is not a multiple of 512,
then parse each 512-byte chunk. -/
def parseUF2Blocks (uf2Data : List Nat) : Except MergeError (List UF2Block) :=
  if uf2Data.length % 512 ≠ 0 then .error (.badLength uf2Data.length)
  else parseChunks (uf2Data.length / 512) uf2Data

/-- Value of `Math.min(...blocks.map(b => b.targetAddr))` for a non-empty list. -/
def minTargetAddr : List UF2Block → Nat
  | [] => 0
  | b :: bs => bs.foldl (fun m x => min m x.targetAddr) b.targetAddr

/-- Value of `Math.max(...blocks.map(b => b.targetAddr + b.payloadSize))` for a
non-empty list. -/
def maxEndAddr : List UF2Block → Nat
  | [] => 0
  | b :: bs => bs.foldl (fun m x => max m (x.targetAddr + x.payloadSize))
      (b.targetAddr + b.payloadSize)

/-- Function `validateMemoryLayout`: skip when either list is empty, otherwise reject
overlap of the two ranges, a base range starting below flash, or a payload
range starting before the base range ends. -/
def validateMemoryLayout (baseBlocks payloadBlocks : List UF2Block) :
    Except MergeError Unit :=
  if baseBlocks.length = 0 ∨ payloadBlocks.length = 0 then .ok ()
  else
    let baseStart := minTargetAddr baseBlocks
    let baseEnd := maxEndAddr baseBlocks
    let payloadStart := minTargetAddr payloadBlocks
    let payloadEnd := maxEndAddr payloadBlocks
    if baseEnd > payloadStart ∧ baseStart < payloadEnd then
      .error (.memoryOverlap baseStart baseEnd payloadStart payloadEnd)
    else if baseStart < FLASH_BASE then
      .error (.baseOutsideFlash baseStart)
    else if payloadStart < baseEnd then
      .error (.payloadBeforeBaseEnd payloadStart baseEnd)
    else .ok ()

/-- Function `renumberBlocks`: set `blockNo` to the position and `numBlocks` to the
total count, preserving every other field. -/
def renumberBlocks (blocks : List UF2Block) : List UF2Block :=
  blocks.enum.map (fun p => { p.2 with blockNo := p.1, numBlocks := blocks.length })

/-- Function `serializeBlock`: 32-byte little-endian header, the data region at
offset 32, zero padding up to offset 508, and the end magic. -/
def serializeBlock (block : UF2Block) : List Nat :=
  le32 block.magicStart0 ++ (le32 block.magicStart1 ++ (le32 block.flags ++
    (le32 block.targetAddr ++ (le32 block.payloadSize ++ (le32 block.blockNo ++
    (le32 block.numBlocks ++ (le32 block.familyID ++ (block.data ++
    (List.replicate (476 - block.data.length) 0 ++ le32 block.magicEnd)))))))))

def serializeBlocks (blocks : List UF2Block) : List Nat :=
  (blocks.map serializeBlock).flatten

/-- Function `mergeUF2`: parse both inputs, validate the memory layout, concatenate
base blocks then payload blocks, renumber, and serialize. -/
def mergeUF2 (baseFirmware payloadFirmware : List Nat) :
    Except MergeError MergeResult := do
  let baseBlocks ← parseUF2Blocks baseFirmware
  let payloadBlocks ← parseUF2Blocks payloadFirmware
  validateMemoryLayout baseBlocks payloadBlocks
  let allBlocks := baseBlocks ++ payloadBlocks
  let renumbered := renumberBlocks allBlocks
  .ok
    { data := serializeBlocks renumbered
      totalBlocks := renumbered.length
      baseBlocks := baseBlocks.length
      payloadBlocks := payloadBlocks.length }

/-- The half-open interval `[minTargetAddr L, maxEndAddr L)` of a block list,
as a predicate on addresses. -/
def inMemRange (L : List UF2Block) (a : Nat) : Prop :=
  minTargetAddr L ≤ a ∧ a < maxEndAddr L

/-- The two memory ranges share an address. -/
def memRangesIntersect (B P : List UF2Block) : Prop :=
  ∃ a, inMemRange B a ∧ inMemRange P a

/-! ## Round-trip lemmas between `parseBlock` and `serializeBlock` -/

/-- Invariants every block produced by `parseBlock` satisfies (in the source
they are enforced by the `Uint8Array` element type, the magic check and the
fixed 512-byte chunking). -/
def UF2Block.Wf (b : UF2Block) : Prop :=
  b.magicStart0 = 0x0A324655 ∧ b.magicStart1 = 0x9E5D5157 ∧
  b.magicEnd = 0x0AB16F30 ∧ b.data.length = 256 ∧
  b.flags < 2 ^ 32 ∧ b.targetAddr < 2 ^ 32 ∧ b.payloadSize < 2 ^ 32 ∧
  b.blockNo < 2 ^ 32 ∧ b.numBlocks < 2 ^ 32 ∧ b.familyID < 2 ^ 32

/-! ## Concrete UF2 fixtures for witnesses and counterexamples -/

/-- A well-formed 512-byte UF2 block image with the given target address and
data fill byte; all padding bytes are zero. -/
def sampleBlockBytes (addr fill : Nat) : List Nat :=
  le32 0x0A324655 ++ (le32 0x9E5D5157 ++ (le32 0x2000 ++ (le32 addr ++ (le32 256 ++
    (le32 0 ++ (le32 1 ++ (le32 0xE48BFF56 ++ (List.replicate 256 fill ++
    (List.replicate 220 0 ++ le32 0x0AB16F30)))))))))

/-- The block record `parseBlock` yields for `sampleBlockBytes addr fill`. -/
def sampleBlock (addr fill : Nat) : UF2Block :=
  { magicStart0 := 0x0A324655, magicStart1 := 0x9E5D5157, flags := 0x2000
    targetAddr := addr, payloadSize := 256, blockNo := 0, numBlocks := 1
    familyID := 0xE48BFF56, data := List.replicate 256 fill
    magicEnd := 0x0AB16F30 }

/-- Like `sampleBlockBytes 0x10000000 0xAB` but with a nonzero byte (1) in
the padding region at offset 288. -/
def paddedBlockBytes : List Nat :=
  le32 0x0A324655 ++ (le32 0x9E5D5157 ++ (le32 0x2000 ++ (le32 0x10000000 ++ (le32 256 ++
    (le32 0 ++ (le32 1 ++ (le32 0xE48BFF56 ++ (List.replicate 256 0xAB ++
    ((1 :: List.replicate 219 0) ++ le32 0x0AB16F30)))))))))

/-! ## DOL parser and validator (`src/lib/firmware/dol-parser.ts`) -/

structure DOLHeader where
  textOffsets : List Nat
  dataOffsets : List Nat
  textAddresses : List Nat
  dataAddresses : List Nat
  textSizes : List Nat
  dataSizes : List Nat
  bssAddress : Nat
  bssSize : Nat
  entryPoint : Nat
deriving DecidableEq

/-- One constructor per `throw` site of the DOL parser/validator, carrying
the numeric fields cited by the corresponding message (the section label
string is omitted). -/
inductive DOLError
  | tooSmall (got : Nat)
  | zeroHeader
  | tooLarge (got : Nat)
  | invalidEntryPoint (got : Nat)
  | invalidLoadAddress (got : Nat)
  | sectionOutOfBounds (offset size fileSize : Nat)
  | overlappingSections (aOffset aEnd bOffset : Nat)
deriving DecidableEq

def DOL_HEADER_SIZE : Nat := 256
def DOL_MAX_SIZE : Nat := 5 * 1024 * 1024
def EXPECTED_ENTRY_POINT : Nat := 0x81300000

/-- Helper `readU32Array`: `count` big-endian words starting at `offset`. -/
def readU32ArrayBE (data : List Nat) (offset count : Nat) : List Nat :=
  (List.range count).map (fun i => readBE32 data (offset + 4 * i))

/-- Function `parseDOLHeader`: reject inputs shorter than 256 bytes, read the six
arrays and three scalars (big-endian), and reject an all-zero header. -/
def parseDOLHeader (data : List Nat) : Except DOLError DOLHeader :=
  if data.length < DOL_HEADER_SIZE then .error (.tooSmall data.length)
  else
    let textOffsets := readU32ArrayBE data 0x00 7
    let dataOffsets := readU32ArrayBE data 0x1C 11
    let textAddresses := readU32ArrayBE data 0x48 7
    let dataAddresses := readU32ArrayBE data 0x64 11
    let textSizes := readU32ArrayBE data 0x90 7
    let dataSizes := readU32ArrayBE data 0xAC 11
    let bssAddress := readBE32 data 0xD8
    let bssSize := readBE32 data 0xDC
    let entryPoint := readBE32 data 0xE0
    if textOffsets.all (· = 0) ∧ dataOffsets.all (· = 0) ∧
        textAddresses.all (· = 0) ∧ entryPoint = 0
    then .error .zeroHeader
    else .ok
      { textOffsets := textOffsets
        dataOffsets := dataOffsets
        textAddresses := textAddresses
        dataAddresses := dataAddresses
        textSizes := textSizes
        dataSizes := dataSizes
        bssAddress := bssAddress
        bssSize := bssSize
        entryPoint := entryPoint }

/-- The `(offset, size)` pairs of the non-empty sections, text sections first
then data sections, in header order (the two `for` loops of the source filter on
`size > 0`; headers produced by `parseDOLHeader` have exactly 7 text and 11
data entries, which `zip` walks in the same order). -/
def dolSections (header : DOLHeader) : List (Nat × Nat) :=
  ((header.textOffsets.zip header.textSizes) ++
    (header.dataOffsets.zip header.dataSizes)).filter (fun s => 0 < s.2)

/-- The section bounds loop: `validateSection` for each non-empty section in
order, rejecting `offset + size > fileSize`. -/
def checkSectionBounds : List (Nat × Nat) → Nat → Except DOLError Unit
  | [], _ => .ok ()
  | (off, size) :: rest, fileSize =>
      if off + size > fileSize then .error (.sectionOutOfBounds off size fileSize)
      else checkSectionBounds rest fileSize

/-- The adjacent-pair scan of `checkOverlappingSections` over the sorted
section list. -/
def checkAdjacent : List (Nat × Nat) → Except DOLError Unit
  | [] => .ok ()
  | [_] => .ok ()
  | a :: b :: rest =>
      if a.1 + a.2 > b.1 then .error (.overlappingSections a.1 (a.1 + a.2) b.1)
      else checkAdjacent (b :: rest)

/-- Function `checkOverlappingSections`: collect non-empty sections, sort by offset
(JavaScript `sort` with comparator `a.offset - b.offset` is stable, matching
`mergeSort`), reject when an interval runs past its successor. -/
def checkOverlappingSections (header : DOLHeader) : Except DOLError Unit :=
  checkAdjacent ((dolSections header).mergeSort (fun a b => a.1 ≤ b.1))

/-- Function `validateDOL`: size bound, entry point, first text load address, section
bounds for text then data sections, then the overlap scan — in the order of the source. -/
def validateDOL (header : DOLHeader) (data : List Nat) : Except DOLError Unit :=
  if data.length > DOL_MAX_SIZE then .error (.tooLarge data.length)
  else if header.entryPoint ≠ EXPECTED_ENTRY_POINT then
    .error (.invalidEntryPoint header.entryPoint)
  else if header.textAddresses.getD 0 0 ≠ EXPECTED_ENTRY_POINT then
    .error (.invalidLoadAddress (header.textAddresses.getD 0 0))
  else do
    checkSectionBounds (dolSections header) data.length
    checkOverlappingSections header

/-- Step 4 of `buildFirmware` from `src/stores/build.ts`: parse and validate the
DOL, then `scramble` it, then hand the scrambled bytes to `wrapPayload`. -/
def buildWrapped (dolFile : List Nat) : Except DOLError WrappedPayload := do
  let dolHeader ← parseDOLHeader dolFile
  validateDOL dolHeader dolFile
  let scrambled := scramble dolFile
  .ok (wrapPayload scrambled)

/-- Invariant I1: entry point and first text load address are `0x81300000`. -/
def DolI1 (header : DOLHeader) : Prop :=
  header.entryPoint = 0x81300000 ∧ header.textAddresses.getD 0 0 = 0x81300000

/-- Invariant I2: every non-empty section lies within the file and no two
non-empty sections overlap in file space. -/
def DolI2 (header : DOLHeader) (data : List Nat) : Prop :=
  (∀ s ∈ dolSections header, s.1 + s.2 ≤ data.length) ∧
  (dolSections header).Pairwise (fun a b => a.1 + a.2 ≤ b.1 ∨ b.1 + b.2 ≤ a.1)

/-- Invariant I3: the file is at most 5 MiB. -/
def DolI3 (data : List Nat) : Prop := data.length ≤ 5 * 1024 * 1024

def DOLError.isI1 : DOLError → Prop
  | .invalidEntryPoint _ => True
  | .invalidLoadAddress _ => True
  | _ => False

def DOLError.isI2 : DOLError → Prop
  | .sectionOutOfBounds _ _ _ => True
  | .overlappingSections _ _ _ => True
  | _ => False

def DOLError.isI3 : DOLError → Prop
  | .tooLarge _ => True
  | _ => False

/-- A header whose entry point is wrong (0) but which is otherwise empty. -/
def badEntryHeader : DOLHeader :=
  { textOffsets := List.replicate 7 0
    dataOffsets := List.replicate 11 0
    textAddresses := List.replicate 7 0
    dataAddresses := List.replicate 11 0
    textSizes := List.replicate 7 0
    dataSizes := List.replicate 11 0
    bssAddress := 0
    bssSize := 0
    entryPoint := 0 }

/-- A header satisfying I1 with no non-empty sections. -/
def okDolHeader : DOLHeader :=
  { textOffsets := List.replicate 7 0
    dataOffsets := List.replicate 11 0
    textAddresses := 0x81300000 :: List.replicate 6 0
    dataAddresses := List.replicate 11 0
    textSizes := List.replicate 7 0
    dataSizes := List.replicate 11 0
    bssAddress := 0
    bssSize := 0
    entryPoint := 0x81300000 }

/-- A minimal 256-byte DOL: first text load address (offset 0x48) and entry
point (offset 0xE0) both `0x81300000`, every other header field zero, no
sections. It passes `parseDOLHeader` and `validateDOL`. -/
def minimalDol : List Nat :=
  List.replicate 72 0 ++ (be32 0x81300000 ++ (List.replicate 148 0 ++
    (be32 0x81300000 ++ List.replicate 28 0)))

/-! ## UF2 encoder (`src/lib/firmware/uf2-encoder.ts`) -/

inductive Platform
  | RP2040
  | RP2350
deriving DecidableEq

/-- The `UF2_FAMILY_IDS` record lookup. -/
def UF2_FAMILY_IDS : Platform → Nat
  | .RP2040 => 0xE48BFF56
  | .RP2350 => 0xE48BFF59

def getFamilyId (platform : Platform) : Nat := UF2_FAMILY_IDS platform

structure UF2EncodeOptions where
  platform : Platform
  baseAddress : Nat

structure UF2EncodeResult where
  data : List Nat
  blockCount : Nat
  totalSize : Nat
  familyId : Nat
  baseAddress : Nat
deriving DecidableEq

/-- The ≤256-byte chunks of the data, via a chunk-count fuel. -/
def chunksLoop : Nat → List Nat → List (List Nat)
  | 0, _ => []
  | n + 1, data => data.take 256 :: chunksLoop n (data.drop 256)

def chunks256 (data : List Nat) : List (List Nat) :=
  chunksLoop ((data.length + 255) / 256) data

/-- One 512-byte UF2 block: the §3 layout with flags `0x2000`, the chunk at
offset 32 zero-padded to 476 bytes, and the end magic at offset 508. -/
def mkUf2Block (chunk : List Nat) (addr blockNo numBlocks family : Nat) :
    List Nat :=
  le32 0x0A324655 ++ (le32 0x9E5D5157 ++ (le32 0x2000 ++ (le32 addr ++
    (le32 chunk.length ++ (le32 blockNo ++ (le32 numBlocks ++ (le32 family ++
    (chunk ++ (List.replicate (476 - chunk.length) 0 ++ le32 0x0AB16F30)))))))))

/-- Modelled from the spec: `convertBinToUf2` of the external `uf2gen`
library, which is not part of this repository (only its caller
`encodeToUF2` is). Spec §4.4: partition the data into consecutive chunks of
at most 256 bytes; chunk `i` becomes one 512-byte block with
`target_addr = base_addr + i * 256`, `payload_size = len(chunk)`,
`block_no = i`, `total_blocks = N` and the given family tag. -/
def convertBinToUf2 (data : List Nat) (baseAddress familyId : Nat) : List Nat :=
  let cs := chunks256 data
  (cs.enum.map (fun p =>
    mkUf2Block p.2 (baseAddress + 256 * p.1) p.1 cs.length familyId)).flatten

/-- The patch loop of `patchFamilyId`: write the new family id (little-
endian) at offset 28 of each 512-byte block. -/
def patchLoop : Nat → List Nat → Nat → List Nat
  | 0, _, _ => []
  | n + 1, uf2Data, newFamilyId =>
      ((uf2Data.take 512).take 28 ++ (le32 newFamilyId ++
        (uf2Data.take 512).drop 32)) ++ patchLoop n (uf2Data.drop 512) newFamilyId

def patchFamilyId (uf2Data : List Nat) (newFamilyId : Nat) : List Nat :=
  patchLoop ((uf2Data.length + 511) / 512) uf2Data newFamilyId

/-- Function `encodeToUF2`: convert with the RP2040 tag (the only one the library
knows), then patch the family id of every block when RP2350 is requested. -/
def encodeToUF2 (data : List Nat) (options : UF2EncodeOptions) :
    UF2EncodeResult :=
  let familyId := getFamilyId options.platform
  let uf2Data := convertBinToUf2 data options.baseAddress (UF2_FAMILY_IDS .RP2040)
  let finalData :=
    if options.platform = .RP2350 then patchFamilyId uf2Data (UF2_FAMILY_IDS .RP2350)
    else uf2Data
  { data := finalData
    blockCount := finalData.length / 512
    totalSize := finalData.length
    familyId := familyId
    baseAddress := options.baseAddress }

/-! ## Properties of the embedded operations, and the claims -/

set_option maxRecDepth 10000

theorem le32_length (n : Nat) : (le32 n).length = 4 := rfl

theorem be32_length (n : Nat) : (be32 n).length = 4 := rfl

theorem decodeLE4_lt (l : List Nat) (h : ∀ b ∈ l, b < 256) :
    decodeLE4 l < 2 ^ 32 := by
  match l with
  | [] => simp [decodeLE4]
  | [b0] =>
    have := h b0 (by simp)
    simp only [decodeLE4, List.getD]; simp; omega
  | [b0, b1] =>
    have h0 := h b0 (by simp); have h1 := h b1 (by simp)
    simp only [decodeLE4, List.getD]; simp; omega
  | [b0, b1, b2] =>
    have h0 := h b0 (by simp); have h1 := h b1 (by simp)
    have h2 := h b2 (by simp)
    simp only [decodeLE4, List.getD]; simp; omega
  | b0 :: b1 :: b2 :: b3 :: rest =>
    have h0 := h b0 (by simp); have h1 := h b1 (by simp)
    have h2 := h b2 (by simp); have h3 := h b3 (by simp)
    simp only [decodeLE4, List.getD]; simp; omega

theorem decodeLE4_le32_append (n : Nat) (rest : List Nat) (h : n < 2 ^ 32) :
    decodeLE4 (le32 n ++ rest) = n := by
  simp only [le32, decodeLE4, List.cons_append, List.nil_append, List.getD_cons_zero,
    List.getD_cons_succ]
  omega

theorem le32_decodeLE4 (b0 b1 b2 b3 : Nat) (rest : List Nat)
    (h0 : b0 < 256) (h1 : b1 < 256) (h2 : b2 < 256) (h3 : b3 < 256) :
    le32 (decodeLE4 (b0 :: b1 :: b2 :: b3 :: rest)) = [b0, b1, b2, b3] := by
  simp only [le32, decodeLE4, List.getD_cons_zero, List.getD_cons_succ,
    List.cons.injEq, and_true]
  refine ⟨?_, ?_, ?_, ?_⟩ <;> omega

theorem scrambleCore_length (s : ScramblerState) (l : List Nat) :
    (scrambleCore s l).length = l.length := by
  induction l generalizing s with
  | nil => rfl
  | cons b rest ih => simp [scrambleCore, ih]

theorem scrambleCore_append (s : ScramblerState) (a b : List Nat) :
    scrambleCore s (a ++ b) =
      scrambleCore s a ++ scrambleCore (byteStep^[a.length] s) b := by
  induction a generalizing s with
  | nil => rfl
  | cons c rest ih =>
      simp only [List.cons_append, scrambleCore, List.length_cons,
        Function.iterate_succ_apply, List.append_eq]
      rw [ih]

theorem scrambleCore_scrambleCore (s : ScramblerState) (l : List Nat) :
    scrambleCore s (scrambleCore s l) = l := by
  induction l generalizing s with
  | nil => rfl
  | cons b rest ih =>
      simp only [scrambleCore, Nat.xor_cancel_right, ih]

/-- After the prepended zeros, `scramble` is `scrambleCore` run from the state
reached by `0x720` byte steps; that state does not depend on the data. -/
theorem scramble_eq_core (x : List Nat) :
    scramble x = scrambleCore (byteStep^[PREPEND_SIZE] initialScramblerState) x := by
  unfold scramble
  rw [scrambleCore_append]
  rw [List.drop_left' (by rw [scrambleCore_length, List.length_replicate])]
  simp [List.length_replicate]

theorem scramble_length (x : List Nat) : (scramble x).length = x.length := by
  rw [scramble_eq_core, scrambleCore_length]

theorem scramble_scramble (x : List Nat) : scramble (scramble x) = x := by
  rw [scramble_eq_core, scramble_eq_core, scrambleCore_scrambleCore]

theorem le_roundUp4 (n : Nat) : n ≤ roundUp4 n := by
  unfold roundUp4; omega

theorem wrapPayload_payload (data : List Nat) :
    (wrapPayload data).payload =
      scramble data ++ (List.replicate (roundUp4 data.length - data.length) 0 ++
        [0x50, 0x49, 0x43, 0x4F]) := by
  simp only [wrapPayload, roundUp4, scramble_length]

theorem wrapPayload_payload_length (data : List Nat) :
    (wrapPayload data).payload.length = roundUp4 data.length + 4 := by
  rw [wrapPayload_payload]
  have h := le_roundUp4 data.length
  have hs := scramble_length data
  simp [hs]
  omega

theorem wrapPayload_header (data : List Nat) :
    (wrapPayload data).header =
      iplbootMagic ++ be32 ((wrapPayload data).payload.length + 32) := by
  simp only [wrapPayload, createIPLBOOTHeader, IPLBOOT_HEADER_SIZE]

theorem wrapPayload_totalSize (data : List Nat) :
    (wrapPayload data).totalSize = 12 + (wrapPayload data).payload.length := by
  simp only [wrapPayload, createIPLBOOTHeader, iplbootMagic]
  simp [be32]

/-- C2: the scrambler is a length-preserving involution: for every byte
sequence `x` (including the empty one), `scramble x` has the length of `x`
and scrambling twice gives back `x`. -/
theorem scramble_involutive (x : List Nat) :
    (scramble x).length = x.length ∧ scramble (scramble x) = x :=
  ⟨scramble_length x, scramble_scramble x⟩

/-- C3: `wrapPayload` emits the 8 ASCII bytes of `IPLBOOT ` followed by the
big-endian 32-bit value `body_len + 32`; the body is the scrambled input
zero-padded to a 4-byte multiple followed by the ASCII bytes `PICO`, so
`body_len = roundUp4 (len raw) + 4` and `totalSize = 12 + body_len`; a
0-length input yields body `PICO` and size field 36. -/
theorem wrapPayload_spec (raw : List Nat) :
    (wrapPayload raw).header =
      iplbootMagic ++ be32 ((wrapPayload raw).payload.length + 32) ∧
    (wrapPayload raw).payload =
      scramble raw ++ (List.replicate (roundUp4 raw.length - raw.length) 0 ++
        [0x50, 0x49, 0x43, 0x4F]) ∧
    (wrapPayload raw).payload.length = roundUp4 raw.length + 4 ∧
    (wrapPayload raw).totalSize = 12 + (wrapPayload raw).payload.length ∧
    (raw = [] →
      (wrapPayload raw).payload = [0x50, 0x49, 0x43, 0x4F] ∧
      (wrapPayload raw).header = iplbootMagic ++ [0, 0, 0, 36]) := by
  refine ⟨wrapPayload_header raw, wrapPayload_payload raw,
    wrapPayload_payload_length raw, wrapPayload_totalSize raw, ?_⟩
  rintro rfl
  have hnil : scramble [] = [] :=
    List.length_eq_zero.mp (scramble_length [])
  constructor
  · rw [wrapPayload_payload, hnil]
    rfl
  · rw [wrapPayload_header, wrapPayload_payload_length]
    rfl

theorem wrapPayload_spec_witness :
    (wrapPayload []).payload = [0x50, 0x49, 0x43, 0x4F] ∧
    (wrapPayload []).header = iplbootMagic ++ [0, 0, 0, 36] :=
  (wrapPayload_spec []).2.2.2.2 rfl

theorem wrapPayload_hundred_header :
    (wrapPayload (List.replicate 100 0)).header =
      [0x49, 0x50, 0x4C, 0x42, 0x4F, 0x4F, 0x54, 0x20, 0x00, 0x00, 0x00, 0x88] := by
  rw [wrapPayload_header, wrapPayload_payload_length]
  rfl

/-- C9 counterexample: on 100 zero bytes the emitted size field is
`0x88 = 104 + 32`, not `0x84` as the claim states. -/
theorem wrapPayload_hundred_size_field :
    (wrapPayload (List.replicate 100 0)).header =
      [0x49, 0x50, 0x4C, 0x42, 0x4F, 0x4F, 0x54, 0x20, 0x00, 0x00, 0x00, 0x88] ∧
    (wrapPayload (List.replicate 100 0)).header ≠
      [0x49, 0x50, 0x4C, 0x42, 0x4F, 0x4F, 0x54, 0x20, 0x00, 0x00, 0x00, 0x84] := by
  refine ⟨wrapPayload_hundred_header, ?_⟩
  rw [wrapPayload_hundred_header]
  decide

/-- C9 (amended): `wrapPayload` on 100 zero bytes yields the header
`IPLBOOT ` followed by big-endian `0x00000088` (`= 136 = 100 + 4 + 32`),
a body of length 104, and last 4 body bytes `0x50, 0x49, 0x43, 0x4F`. -/
theorem wrapPayload_hundred_zero_bytes :
    (wrapPayload (List.replicate 100 0)).header =
      [0x49, 0x50, 0x4C, 0x42, 0x4F, 0x4F, 0x54, 0x20, 0x00, 0x00, 0x00, 0x88] ∧
    (wrapPayload (List.replicate 100 0)).payload.length = 104 ∧
    (wrapPayload (List.replicate 100 0)).payload.drop 100 =
      [0x50, 0x49, 0x43, 0x4F] := by
  refine ⟨wrapPayload_hundred_header, ?_, ?_⟩
  · rw [wrapPayload_payload_length]; rfl
  · rw [wrapPayload_payload]
    have h100 : (scramble (List.replicate 100 0)).length = 100 := by
      rw [scramble_length, List.length_replicate]
    rw [List.drop_left' h100]
    rfl

theorem validateMemoryLayout_empty (B P : List UF2Block) (h : B = [] ∨ P = []) :
    validateMemoryLayout B P = .ok () := by
  unfold validateMemoryLayout
  rcases h with h | h <;> simp [h]

/-- The if-chain of `validateMemoryLayout` fails exactly when the payload
range starts before the base range ends, or the base range starts below
flash: the explicit overlap test is subsumed by the former. -/
theorem validateMemoryLayout_error_iff (B P : List UF2Block)
    (hB : B ≠ []) (hP : P ≠ []) :
    (∃ e, validateMemoryLayout B P = .error e) ↔
      minTargetAddr P < maxEndAddr B ∨ minTargetAddr B < FLASH_BASE := by
  unfold validateMemoryLayout
  have hB' : B.length ≠ 0 := fun h => hB (List.length_eq_zero.mp h)
  have hP' : P.length ≠ 0 := fun h => hP (List.length_eq_zero.mp h)
  simp only [hB', hP', or_self, if_false, false_or]
  split
  · rename_i hov
    simp only [Except.error.injEq, exists_eq']
    exact iff_of_true trivial (Or.inl hov.1)
  · rename_i hov
    split
    · rename_i hflash
      simp only [Except.error.injEq, exists_eq']
      exact iff_of_true trivial (Or.inr hflash)
    · rename_i hflash
      split
      · rename_i hbefore
        simp only [Except.error.injEq, exists_eq']
        exact iff_of_true trivial (Or.inl hbefore)
      · rename_i hbefore
        simp only [reduceCtorEq, exists_false, false_iff, not_or, not_lt]
        push_neg at hbefore hflash
        exact ⟨hbefore, hflash⟩

theorem mergeUF2_unfold (base payload : List Nat) (B P : List UF2Block)
    (hB : parseUF2Blocks base = .ok B) (hP : parseUF2Blocks payload = .ok P) :
    mergeUF2 base payload =
      (validateMemoryLayout B P).bind (fun _ => .ok
        { data := serializeBlocks (renumberBlocks (B ++ P))
          totalBlocks := (renumberBlocks (B ++ P)).length
          baseBlocks := B.length
          payloadBlocks := P.length }) := by
  unfold mergeUF2
  rw [hB, hP]
  rfl

/-- C5: with both parsed block lists non-empty, `mergeUF2` fails exactly when
the base and payload memory ranges intersect, or the base range starts below
`FLASH_BASE`, or the payload range starts before the base range ends; with
either list empty no layout error is raised and the merge proceeds. -/
theorem mergeUF2_layout_errors (base payload : List Nat) (B P : List UF2Block)
    (hB : parseUF2Blocks base = .ok B) (hP : parseUF2Blocks payload = .ok P) :
    ((B = [] ∨ P = []) → ∃ r, mergeUF2 base payload = .ok r) ∧
    (B ≠ [] → P ≠ [] →
      ((∃ e, mergeUF2 base payload = .error e) ↔
        (memRangesIntersect B P ∨ minTargetAddr B < FLASH_BASE ∨
          minTargetAddr P < maxEndAddr B))) := by
  rw [mergeUF2_unfold base payload B P hB hP]
  constructor
  · intro h
    rw [validateMemoryLayout_empty B P h]
    exact ⟨_, rfl⟩
  · intro hBne hPne
    have herr := validateMemoryLayout_error_iff B P hBne hPne
    constructor
    · intro ⟨e, he⟩
      have : ∃ e, validateMemoryLayout B P = .error e := by
        cases hv : validateMemoryLayout B P with
        | ok u => rw [hv] at he; simp [Except.bind] at he
        | error e' => exact ⟨e', rfl⟩
      rcases herr.mp this with h | h
      · exact Or.inr (Or.inr h)
      · exact Or.inr (Or.inl h)
    · intro h
      have hcond : minTargetAddr P < maxEndAddr B ∨ minTargetAddr B < FLASH_BASE := by
        rcases h with ⟨a, ⟨_, haB⟩, ⟨haP, _⟩⟩ | h | h
        · exact Or.inl (Nat.lt_of_le_of_lt haP haB)
        · exact Or.inr h
        · exact Or.inl h
      obtain ⟨e, he⟩ := herr.mpr hcond
      exact ⟨e, by rw [he]; rfl⟩

theorem parseBlock_ok (c : List Nat) (b : UF2Block) (h : parseBlock c = .ok b) :
    c.length = 512 ∧
    b.magicStart0 = 0x0A324655 ∧ b.magicStart1 = 0x9E5D5157 ∧
    b.magicEnd = 0x0AB16F30 ∧
    b.flags = readLE32 c 8 ∧ b.targetAddr = readLE32 c 12 ∧
    b.payloadSize = readLE32 c 16 ∧ b.blockNo = readLE32 c 20 ∧
    b.numBlocks = readLE32 c 24 ∧ b.familyID = readLE32 c 28 ∧
    b.data = (c.drop 32).take 256 ∧
    b.magicStart0 = readLE32 c 0 ∧ b.magicStart1 = readLE32 c 4 ∧
    b.magicEnd = readLE32 c 508 := by
  unfold parseBlock at h
  split at h
  · exact absurd h (by simp)
  · rename_i hlen
    dsimp only at h
    split at h
    · exact absurd h (by simp)
    · rename_i hmagic
      push_neg at hmagic
      obtain ⟨hm0, hm1, hme⟩ := hmagic
      obtain ⟨rfl⟩ := Except.ok.inj h
      push_neg at hlen
      exact ⟨hlen, hm0, hm1, hme, rfl, rfl, rfl, rfl, rfl, rfl, rfl, rfl, rfl, rfl⟩

theorem parseBlock_wf (c : List Nat) (b : UF2Block) (h : parseBlock c = .ok b)
    (hb : ∀ a ∈ c, a < 256) : b.Wf := by
  obtain ⟨hlen, hm0, hm1, hme, hfl, hta, hps, hbn, hnb, hfid, hdata, _⟩ :=
    parseBlock_ok c b h
  have hlt : ∀ o : Nat, readLE32 c o < 2 ^ 32 := fun o =>
    decodeLE4_lt _ (fun a ha => hb a (List.mem_of_mem_drop ha))
  refine ⟨hm0, hm1, hme, ?_, ?_, ?_, ?_, ?_, ?_, ?_⟩
  · rw [hdata]
    simp [List.length_take, List.length_drop, hlen]
  · rw [hfl]; exact hlt 8
  · rw [hta]; exact hlt 12
  · rw [hps]; exact hlt 16
  · rw [hbn]; exact hlt 20
  · rw [hnb]; exact hlt 24
  · rw [hfid]; exact hlt 28

theorem serializeBlock_length (b : UF2Block) (h : b.data.length ≤ 476) :
    (serializeBlock b).length = 512 := by
  simp [serializeBlock, le32]
  omega

/-- Dropping one more 32-bit field from a tail of a serialized block. -/
theorem drop_le32_tail (l rest : List Nat) (n o : Nat)
    (h : l.drop o = le32 n ++ rest) : l.drop (o + 4) = rest := by
  have hd : l.drop (o + 4) = (l.drop o).drop 4 := by
    rw [List.drop_drop]
  rw [hd, h]
  exact List.drop_left' (le32_length n)

theorem parse_serializeBlock (b : UF2Block) (hwf : b.Wf) :
    parseBlock (serializeBlock b) = .ok b := by
  obtain ⟨m0, m1, fl, ta, ps, bn, nb, fid, d, me⟩ := b
  obtain ⟨hm0, hm1, hme, hdlen, hfl, hta, hps, hbn, hnb, hfid⟩ := hwf
  dsimp only at hm0 hm1 hme hdlen hfl hta hps hbn hnb hfid
  subst hm0 hm1 hme
  set S := serializeBlock
    (UF2Block.mk 0x0A324655 0x9E5D5157 fl ta ps bn nb fid d 0x0AB16F30) with hSdef
  have hS : S = le32 0x0A324655 ++ (le32 0x9E5D5157 ++ (le32 fl ++ (le32 ta ++
      (le32 ps ++ (le32 bn ++ (le32 nb ++ (le32 fid ++ (d ++
      (List.replicate 220 0 ++ le32 0x0AB16F30))))))))) := by
    rw [hSdef]
    simp only [serializeBlock, hdlen]
  have hlen : S.length = 512 := by
    rw [hSdef]
    exact serializeBlock_length _ (by dsimp only; omega)
  have e0 : S.drop 0 = le32 0x0A324655 ++ (le32 0x9E5D5157 ++ (le32 fl ++
      (le32 ta ++ (le32 ps ++ (le32 bn ++ (le32 nb ++ (le32 fid ++ (d ++
      (List.replicate 220 0 ++ le32 0x0AB16F30))))))))) := by
    rw [List.drop_zero, hS]
  have e4 := drop_le32_tail S _ _ 0 e0
  norm_num at e4
  have e8 := drop_le32_tail S _ _ 4 e4
  norm_num at e8
  have e12 := drop_le32_tail S _ _ 8 e8
  norm_num at e12
  have e16 := drop_le32_tail S _ _ 12 e12
  norm_num at e16
  have e20 := drop_le32_tail S _ _ 16 e16
  norm_num at e20
  have e24 := drop_le32_tail S _ _ 20 e20
  norm_num at e24
  have e28 := drop_le32_tail S _ _ 24 e24
  norm_num at e28
  have e32 := drop_le32_tail S _ _ 28 e28
  norm_num at e32
  have e508 : S.drop 508 = le32 0x0AB16F30 := by
    have hd : S.drop 508 = (S.drop 32).drop 476 := by
      rw [List.drop_drop]
    rw [hd, e32, ← List.append_assoc]
    exact List.drop_left' (by rw [List.length_append, List.length_replicate, hdlen])
  have hr0 : readLE32 S 0 = 0x0A324655 := by
    rw [readLE32, e0]
    exact decodeLE4_le32_append _ _ (by norm_num)
  have hr4 : readLE32 S 4 = 0x9E5D5157 := by
    rw [readLE32, e4]
    exact decodeLE4_le32_append _ _ (by norm_num)
  have hr8 : readLE32 S 8 = fl := by
    rw [readLE32, e8]
    exact decodeLE4_le32_append _ _ hfl
  have hr12 : readLE32 S 12 = ta := by
    rw [readLE32, e12]
    exact decodeLE4_le32_append _ _ hta
  have hr16 : readLE32 S 16 = ps := by
    rw [readLE32, e16]
    exact decodeLE4_le32_append _ _ hps
  have hr20 : readLE32 S 20 = bn := by
    rw [readLE32, e20]
    exact decodeLE4_le32_append _ _ hbn
  have hr24 : readLE32 S 24 = nb := by
    rw [readLE32, e24]
    exact decodeLE4_le32_append _ _ hnb
  have hr28 : readLE32 S 28 = fid := by
    rw [readLE32, e28]
    exact decodeLE4_le32_append _ _ hfid
  have hr508 : readLE32 S 508 = 0x0AB16F30 := by
    rw [readLE32, e508, ← List.append_nil (le32 0x0AB16F30)]
    exact decodeLE4_le32_append _ _ (by norm_num)
  have hdata : (S.drop 32).take 256 = d := by
    rw [e32, ← hdlen]
    exact List.take_left' rfl
  unfold parseBlock
  rw [if_neg (by rw [hlen]; norm_num)]
  simp only [hr0, hr4, hr8, hr12, hr16, hr20, hr24, hr28, hr508, hdata]
  norm_num

theorem serializeBlocks_nil : serializeBlocks [] = [] := rfl

theorem serializeBlocks_cons (b : UF2Block) (bs : List UF2Block) :
    serializeBlocks (b :: bs) = serializeBlock b ++ serializeBlocks bs := by
  simp [serializeBlocks]

theorem serializeBlocks_length (bs : List UF2Block)
    (h : ∀ b ∈ bs, (serializeBlock b).length = 512) :
    (serializeBlocks bs).length = 512 * bs.length := by
  induction bs with
  | nil => rfl
  | cons b rest ih =>
      rw [serializeBlocks_cons, List.length_append, h b (by simp),
        ih (fun x hx => h x (by simp [hx]))]
      simp [Nat.mul_succ]
      omega

theorem parseChunks_serializeBlocks (bs : List UF2Block)
    (h : ∀ b ∈ bs, b.Wf) :
    parseChunks bs.length (serializeBlocks bs) = .ok bs := by
  induction bs with
  | nil => rfl
  | cons b rest ih =>
      have hwf : b.Wf := h b (by simp)
      have hlen : (serializeBlock b).length = 512 :=
        serializeBlock_length b (by have := hwf.2.2.2.1; omega)
      rw [List.length_cons, serializeBlocks_cons]
      show (do
        let b' ← parseBlock ((serializeBlock b ++ serializeBlocks rest).take 512)
        let rest' ← parseChunks rest.length
          ((serializeBlock b ++ serializeBlocks rest).drop 512)
        .ok (b' :: rest')) = .ok (b :: rest)
      rw [List.take_left' hlen, List.drop_left' hlen, parse_serializeBlock b hwf,
        ih (fun x hx => h x (by simp [hx]))]
      rfl

/-- Serialization followed by parsing is the identity on lists of well-formed
blocks. -/
theorem parse_serializeBlocks (bs : List UF2Block) (h : ∀ b ∈ bs, b.Wf) :
    parseUF2Blocks (serializeBlocks bs) = .ok bs := by
  have hlens : ∀ b ∈ bs, (serializeBlock b).length = 512 := fun b hb =>
    serializeBlock_length b (by have := (h b hb).2.2.2.1; omega)
  have hlen := serializeBlocks_length bs hlens
  unfold parseUF2Blocks
  rw [if_neg (by rw [hlen]; omega)]
  rw [hlen, Nat.mul_div_cancel_left _ (by norm_num : (0:Nat) < 512)]
  exact parseChunks_serializeBlocks bs h

theorem except_error_bind {e0 a b : Type} (e : e0) (f : a -> Except e0 b) :
    (Except.error e >>= f) = Except.error e := rfl

theorem except_ok_bind {e0 a b : Type} (x : a) (f : a -> Except e0 b) :
    (Except.ok x >>= f) = f x := rfl

theorem parseChunks_ok (n : Nat) (l : List Nat) (B : List UF2Block)
    (h : parseChunks n l = .ok B) :
    B.length = n ∧
    ∀ i (hi : i < B.length),
      parseBlock ((l.drop (512 * i)).take 512) = .ok (B.get ⟨i, hi⟩) := by
  induction n generalizing l B with
  | zero =>
      obtain rfl : B = [] := by
        have := h
        unfold parseChunks at this
        exact (Except.ok.inj this).symm
      exact ⟨rfl, fun i hi => absurd hi (by simp)⟩
  | succ n ih =>
      unfold parseChunks at h
      cases hpb : parseBlock (l.take 512) with
      | error e =>
          rw [hpb, except_error_bind] at h
          exact absurd h (by simp)
      | ok b =>
          rw [hpb, except_ok_bind] at h
          cases hrest : parseChunks n (l.drop 512) with
          | error e =>
              rw [hrest, except_error_bind] at h
              exact absurd h (by simp)
          | ok rest =>
              rw [hrest, except_ok_bind] at h
              obtain rfl : b :: rest = B := Except.ok.inj h
              obtain ⟨hlen, hchunks⟩ := ih (l.drop 512) rest hrest
              refine ⟨by simp [hlen], ?_⟩
              intro i hi
              match i with
              | 0 => simpa using hpb
              | i + 1 =>
                  have hi' : i < rest.length := by
                    simp at hi; omega
                  have := hchunks i hi'
                  rw [List.drop_drop] at this
                  have harith : 512 + 512 * i = 512 * (i + 1) := by ring
                  rw [harith] at this
                  simpa using this

theorem parseUF2Blocks_ok (l : List Nat) (B : List UF2Block)
    (h : parseUF2Blocks l = .ok B) :
    l.length = 512 * B.length ∧
    ∀ i (hi : i < B.length),
      parseBlock ((l.drop (512 * i)).take 512) = .ok (B.get ⟨i, hi⟩) := by
  unfold parseUF2Blocks at h
  split at h
  · exact absurd h (by simp)
  · rename_i hmod
    push_neg at hmod
    obtain ⟨hlen, hchunks⟩ := parseChunks_ok _ l B h
    exact ⟨by omega, hchunks⟩

/-- Every block parsed out of a byte stream is well-formed. -/
theorem parseUF2Blocks_wf (l : List Nat) (B : List UF2Block)
    (h : parseUF2Blocks l = .ok B) (hbytes : ∀ a ∈ l, a < 256) :
    ∀ b ∈ B, b.Wf := by
  obtain ⟨_, hchunks⟩ := parseUF2Blocks_ok l B h
  intro b hb
  obtain ⟨⟨i, hi⟩, rfl⟩ := List.mem_iff_get.mp hb
  exact parseBlock_wf _ _ (hchunks i hi)
    (fun a ha => hbytes a (List.mem_of_mem_drop (List.mem_of_mem_take ha)))

theorem renumberBlocks_length (bs : List UF2Block) :
    (renumberBlocks bs).length = bs.length := by
  simp [renumberBlocks]

theorem renumberBlocks_get (bs : List UF2Block) (i : Nat)
    (hi : i < (renumberBlocks bs).length) (hi' : i < bs.length) :
    (renumberBlocks bs).get ⟨i, hi⟩ =
      { bs.get ⟨i, hi'⟩ with blockNo := i, numBlocks := bs.length } := by
  simp only [renumberBlocks, List.get_eq_getElem, List.getElem_map]
  rw [List.getElem_enum]

theorem renumber_wf (bs : List UF2Block) (h : ∀ b ∈ bs, b.Wf)
    (hN : bs.length < 2 ^ 32) : ∀ b ∈ renumberBlocks bs, b.Wf := by
  intro b hb
  obtain ⟨⟨i, hi⟩, rfl⟩ := List.mem_iff_get.mp hb
  have hi' : i < bs.length := by
    rw [renumberBlocks_length] at hi
    exact hi
  rw [renumberBlocks_get bs i hi hi']
  obtain ⟨h1, h2, h3, h4, h5, h6, h7, _, _, h10⟩ := h (bs.get ⟨i, hi'⟩) (bs.get_mem _ _)
  refine ⟨h1, h2, h3, h4, h5, h6, h7, ?_, ?_, h10⟩
  · show i < 2 ^ 32
    omega
  · show bs.length < 2 ^ 32
    exact hN

theorem mergeUF2_ok (base payload : List Nat) (B P : List UF2Block)
    (hB : parseUF2Blocks base = .ok B) (hP : parseUF2Blocks payload = .ok P)
    (hV : validateMemoryLayout B P = .ok ()) :
    mergeUF2 base payload = .ok
      { data := serializeBlocks (renumberBlocks (B ++ P))
        totalBlocks := (renumberBlocks (B ++ P)).length
        baseBlocks := B.length
        payloadBlocks := P.length } := by
  rw [mergeUF2_unfold base payload B P hB hP, hV]
  rfl

/-- C4: for parsed inputs `B` and `P` passing layout validation, the merged
stream holds exactly `N = len B + len P` blocks ordered `B` then `P`, block
`i` carries `blockNo = i` and `numBlocks = N`, and every other field (flags,
target address, payload size, family tag, 256-byte data region) is preserved
verbatim from the corresponding input block. -/
theorem mergeUF2_renumbering (base payload : List Nat) (B P : List UF2Block)
    (hbase : ∀ a ∈ base, a < 256) (hpay : ∀ a ∈ payload, a < 256)
    (hB : parseUF2Blocks base = .ok B) (hP : parseUF2Blocks payload = .ok P)
    (hV : validateMemoryLayout B P = .ok ())
    (hN : B.length + P.length < 2 ^ 32) :
    ∃ r, mergeUF2 base payload = .ok r ∧
      r.totalBlocks = B.length + P.length ∧
      r.data.length = 512 * (B.length + P.length) ∧
      parseUF2Blocks r.data = .ok (renumberBlocks (B ++ P)) ∧
      (renumberBlocks (B ++ P)).length = B.length + P.length ∧
      ∀ i (hi : i < (renumberBlocks (B ++ P)).length)
          (hi' : i < (B ++ P).length),
        ((renumberBlocks (B ++ P)).get ⟨i, hi⟩).blockNo = i ∧
        ((renumberBlocks (B ++ P)).get ⟨i, hi⟩).numBlocks = B.length + P.length ∧
        ((renumberBlocks (B ++ P)).get ⟨i, hi⟩).flags =
          ((B ++ P).get ⟨i, hi'⟩).flags ∧
        ((renumberBlocks (B ++ P)).get ⟨i, hi⟩).targetAddr =
          ((B ++ P).get ⟨i, hi'⟩).targetAddr ∧
        ((renumberBlocks (B ++ P)).get ⟨i, hi⟩).payloadSize =
          ((B ++ P).get ⟨i, hi'⟩).payloadSize ∧
        ((renumberBlocks (B ++ P)).get ⟨i, hi⟩).familyID =
          ((B ++ P).get ⟨i, hi'⟩).familyID ∧
        ((renumberBlocks (B ++ P)).get ⟨i, hi⟩).data =
          ((B ++ P).get ⟨i, hi'⟩).data := by
  have hwfB := parseUF2Blocks_wf base B hB hbase
  have hwfP := parseUF2Blocks_wf payload P hP hpay
  have hwfBP : ∀ b ∈ B ++ P, b.Wf := by
    intro b hb
    rcases List.mem_append.mp hb with hb | hb
    · exact hwfB b hb
    · exact hwfP b hb
  have hlenBP : (B ++ P).length = B.length + P.length := List.length_append B P
  have hwfR : ∀ b ∈ renumberBlocks (B ++ P), b.Wf :=
    renumber_wf _ hwfBP (by rw [hlenBP]; exact hN)
  have h512 : ∀ b ∈ renumberBlocks (B ++ P), (serializeBlock b).length = 512 :=
    fun b hb => serializeBlock_length b (by have := (hwfR b hb).2.2.2.1; omega)
  refine ⟨_, mergeUF2_ok base payload B P hB hP hV, ?_, ?_, ?_, ?_, ?_⟩
  · rw [renumberBlocks_length, hlenBP]
  · show (serializeBlocks (renumberBlocks (B ++ P))).length = _
    rw [serializeBlocks_length _ h512, renumberBlocks_length, hlenBP]
  · exact parse_serializeBlocks _ hwfR
  · rw [renumberBlocks_length, hlenBP]
  · intro i hi hi'
    rw [renumberBlocks_get _ i hi hi']
    exact ⟨rfl, hlenBP ▸ rfl, rfl, rfl, rfl, rfl, rfl⟩

theorem parseBlock_data_length (c : List Nat) (b : UF2Block)
    (h : parseBlock c = .ok b) : b.data.length = 256 := by
  obtain ⟨hlen, _, _, _, _, _, _, _, _, _, hdata, _⟩ := parseBlock_ok c b h
  rw [hdata]
  simp [hlen]

theorem le32_readLE32 (c : List Nat) (o : Nat) (h : o + 4 ≤ c.length)
    (hb : ∀ a ∈ c, a < 256) :
    le32 (readLE32 c o) = (c.drop o).take 4 := by
  have hlen : 4 ≤ (c.drop o).length := by
    rw [List.length_drop]
    omega
  have hbL : ∀ a ∈ c.drop o, a < 256 := fun a ha => hb a (List.mem_of_mem_drop ha)
  unfold readLE32
  generalize hL : c.drop o = L at hlen hbL ⊢
  match L, hlen with
  | b0 :: b1 :: b2 :: b3 :: rest, _ =>
      rw [le32_decodeLE4 b0 b1 b2 b3 rest (hbL b0 (by simp)) (hbL b1 (by simp))
        (hbL b2 (by simp)) (hbL b3 (by simp))]
      rfl

theorem drop_take_split4 (l : List Nat) (o n m : Nat) (h : n = 4 + m) :
    (l.drop o).take n = (l.drop o).take 4 ++ (l.drop (o + 4)).take m := by
  have hd : (l.drop o).drop 4 = l.drop (o + 4) := by
    rw [List.drop_drop]
  subst h
  rw [List.take_add (l.drop o) 4 m, hd]

/-- Serializing a parsed block with renumbered `blockNo`/`numBlocks` repeats
the original chunk bytes outside offsets 20..27 (the renumbered fields) and
288..507 (the padding region, zeroed on output). -/
theorem serializeBlock_renumber_slices (c : List Nat) (b : UF2Block) (i N : Nat)
    (hp : parseBlock c = .ok b) (hb : ∀ a ∈ c, a < 256) :
    serializeBlock { b with blockNo := i, numBlocks := N } =
      c.take 20 ++ (le32 i ++ (le32 N ++ ((c.drop 28).take 260 ++
        (List.replicate 220 0 ++ c.drop 508)))) := by
  obtain ⟨hlen, _, _, _, hfl, hta, hps, _, _, hfid, hdata, hm0r, hm1r, hmer⟩ :=
    parseBlock_ok c b hp
  have hd256 : b.data.length = 256 := parseBlock_data_length c b hp
  have hS : serializeBlock { b with blockNo := i, numBlocks := N } =
      le32 b.magicStart0 ++ (le32 b.magicStart1 ++ (le32 b.flags ++
      (le32 b.targetAddr ++ (le32 b.payloadSize ++ (le32 i ++ (le32 N ++
      (le32 b.familyID ++ (b.data ++ (List.replicate 220 0 ++
      le32 b.magicEnd))))))))) := by
    simp only [serializeBlock, hd256]
  have slice : ∀ o : Nat, o + 4 ≤ 512 → le32 (readLE32 c o) = (c.drop o).take 4 :=
    fun o ho => le32_readLE32 c o (by omega) hb
  have s0 : le32 b.magicStart0 = c.take 4 := by
    rw [hm0r, slice 0 (by norm_num), List.drop_zero]
  have s4 : le32 b.magicStart1 = (c.drop 4).take 4 := by
    rw [hm1r]; exact slice 4 (by norm_num)
  have s8 : le32 b.flags = (c.drop 8).take 4 := by
    rw [hfl]; exact slice 8 (by norm_num)
  have s12 : le32 b.targetAddr = (c.drop 12).take 4 := by
    rw [hta]; exact slice 12 (by norm_num)
  have s16 : le32 b.payloadSize = (c.drop 16).take 4 := by
    rw [hps]; exact slice 16 (by norm_num)
  have s28 : le32 b.familyID = (c.drop 28).take 4 := by
    rw [hfid]; exact slice 28 (by norm_num)
  have s508 : le32 b.magicEnd = c.drop 508 := by
    rw [hmer, slice 508 (by norm_num)]
    exact List.take_of_length_le (by rw [List.length_drop, hlen])
  have t20 : c.take 20 = c.take 4 ++ ((c.drop 4).take 4 ++
      ((c.drop 8).take 4 ++ ((c.drop 12).take 4 ++ (c.drop 16).take 4))) := by
    have h0 : c.take 20 = c.take 4 ++ (c.drop 4).take 16 := by
      simpa using drop_take_split4 c 0 20 16 (by norm_num)
    have h4 : (c.drop 4).take 16 = (c.drop 4).take 4 ++ (c.drop 8).take 12 := by
      have := drop_take_split4 c 4 16 12 (by norm_num)
      norm_num at this
      exact this
    have h8 : (c.drop 8).take 12 = (c.drop 8).take 4 ++ (c.drop 12).take 8 := by
      have := drop_take_split4 c 8 12 8 (by norm_num)
      norm_num at this
      exact this
    have h12 : (c.drop 12).take 8 = (c.drop 12).take 4 ++ (c.drop 16).take 4 := by
      have := drop_take_split4 c 12 8 4 (by norm_num)
      norm_num at this
      exact this
    rw [h0, h4, h8, h12]
  have t28 : (c.drop 28).take 260 = (c.drop 28).take 4 ++ (c.drop 32).take 256 := by
    have := drop_take_split4 c 28 260 256 (by norm_num)
    norm_num at this
    exact this
  rw [hS, s0, s4, s8, s12, s16, s28, s508, hdata, t20, t28]
  simp only [List.drop_zero, List.append_assoc]

theorem serializeBlocks_chunk (bs : List UF2Block) (i : Nat)
    (h512 : ∀ b ∈ bs, (serializeBlock b).length = 512) (hi : i < bs.length) :
    ((serializeBlocks bs).drop (512 * i)).take 512 =
      serializeBlock (bs.get ⟨i, hi⟩) := by
  induction bs generalizing i with
  | nil => simp at hi
  | cons b rest ih =>
      match i with
      | 0 =>
          rw [serializeBlocks_cons]
          simp only [Nat.mul_zero, List.drop_zero]
          exact List.take_left' (h512 b (by simp))
      | i + 1 =>
          rw [serializeBlocks_cons]
          have hdrop : (serializeBlock b ++ serializeBlocks rest).drop (512 * (i + 1)) =
              (serializeBlocks rest).drop (512 * i) := by
            have h1 : 512 * (i + 1) = 512 + 512 * i := by ring
            rw [h1, ← List.drop_drop, List.drop_left' (h512 b (by simp))]
          rw [hdrop]
          have hi' : i < rest.length := by simp at hi; omega
          rw [ih i (fun x hx => h512 x (by simp [hx])) hi']
          rfl

/-- C7 (amended): each base block occupies the same position in the merged
stream, with its bytes at offsets 0..19, 28..287 and 508..511 preserved
verbatim, offsets 20..27 rewritten to the little-endian renumbered
`blockNo = i` and `numBlocks = N`, and offsets 288..507 (the padding bytes)
zeroed in the output regardless of their input values. -/
theorem mergeUF2_base_block_bytes (base payload : List Nat) (B P : List UF2Block)
    (hbase : ∀ a ∈ base, a < 256)
    (hB : parseUF2Blocks base = .ok B) (hP : parseUF2Blocks payload = .ok P)
    (hV : validateMemoryLayout B P = .ok ()) :
    ∃ r, mergeUF2 base payload = .ok r ∧
      ∀ i (hi : i < B.length),
        (r.data.drop (512 * i)).take 512 =
          ((base.drop (512 * i)).take 512).take 20 ++
            (le32 i ++ (le32 (B.length + P.length) ++
            ((((base.drop (512 * i)).take 512).drop 28).take 260 ++
            (List.replicate 220 0 ++ ((base.drop (512 * i)).take 512).drop 508)))) := by
  obtain ⟨hblen, hchunks⟩ := parseUF2Blocks_ok base B hB
  have hlenBP : (B ++ P).length = B.length + P.length := List.length_append B P
  have hd256 : ∀ b ∈ B ++ P, b.data.length = 256 := by
    intro b hb
    rcases List.mem_append.mp hb with hb | hb
    · obtain ⟨⟨j, hj⟩, rfl⟩ := List.mem_iff_get.mp hb
      exact parseBlock_data_length _ _ ((parseUF2Blocks_ok base B hB).2 j hj)
    · obtain ⟨⟨j, hj⟩, rfl⟩ := List.mem_iff_get.mp hb
      exact parseBlock_data_length _ _ ((parseUF2Blocks_ok payload P hP).2 j hj)
  have h512 : ∀ b ∈ renumberBlocks (B ++ P), (serializeBlock b).length = 512 := by
    intro b hb
    obtain ⟨⟨j, hj⟩, rfl⟩ := List.mem_iff_get.mp hb
    have hj' : j < (B ++ P).length := by
      rw [renumberBlocks_length] at hj
      exact hj
    rw [renumberBlocks_get _ j hj hj']
    refine serializeBlock_length _ ?_
    have := hd256 _ (List.get_mem (B ++ P) j hj')
    show ((B ++ P).get ⟨j, hj'⟩).data.length ≤ 476
    omega
  refine ⟨_, mergeUF2_ok base payload B P hB hP hV, ?_⟩
  intro i hi
  show ((serializeBlocks (renumberBlocks (B ++ P))).drop (512 * i)).take 512 = _
  have hiR : i < (renumberBlocks (B ++ P)).length := by
    rw [renumberBlocks_length, hlenBP]
    omega
  have hiBP : i < (B ++ P).length := by
    rw [hlenBP]
    omega
  rw [serializeBlocks_chunk (renumberBlocks (B ++ P)) i h512 hiR,
    renumberBlocks_get _ i hiR hiBP]
  have hgetB : (B ++ P).get ⟨i, hiBP⟩ = B.get ⟨i, hi⟩ := by
    simp only [List.get_eq_getElem]
    exact List.getElem_append_left hi
  rw [hgetB]
  have key := serializeBlock_renumber_slices _ _ i ((B ++ P).length) (hchunks i hi)
    (fun a ha => hbase a (List.mem_of_mem_drop (List.mem_of_mem_take ha)))
  rw [key, hlenBP]

theorem mergeUF2_layout_errors_witness :
    ∃ r, mergeUF2 (sampleBlockBytes 0x10000000 0xAB) [] = .ok r :=
  (mergeUF2_layout_errors (sampleBlockBytes 0x10000000 0xAB) []
    [sampleBlock 0x10000000 0xAB] [] (by rfl) (by rfl)).1 (Or.inr rfl)

theorem mergeUF2_renumbering_witness :
    ∃ r, mergeUF2 (sampleBlockBytes 0x10000000 0xAB)
        (sampleBlockBytes 0x10080000 0x12) = .ok r ∧
      r.totalBlocks = 2 ∧
      r.data.length = 1024 ∧
      parseUF2Blocks r.data = .ok (renumberBlocks
        ([sampleBlock 0x10000000 0xAB] ++ [sampleBlock 0x10080000 0x12])) := by
  obtain ⟨r, h1, h2, h3, h4, _⟩ := mergeUF2_renumbering
    (sampleBlockBytes 0x10000000 0xAB) (sampleBlockBytes 0x10080000 0x12)
    [sampleBlock 0x10000000 0xAB] [sampleBlock 0x10080000 0x12]
    (by decide) (by decide) (by rfl) (by rfl) (by rfl) (by decide)
  exact ⟨r, h1, h2, h3, h4⟩

/-- C7 counterexample: the padding byte at offset 288 of the base block is 1
in the input but 0 in the merged output, although the claim says every byte
outside the blockNo and numBlocks fields is preserved. -/
theorem mergeUF2_padding_not_preserved :
    paddedBlockBytes.getD 288 0 = 1 ∧
    (mergeUF2 paddedBlockBytes (sampleBlockBytes 0x10080000 0x12)).map
      (fun r => r.data.getD 288 0) = .ok 0 := by
  exact ⟨by rfl, by rfl⟩

theorem mergeUF2_base_block_bytes_witness :
    ∃ r, mergeUF2 paddedBlockBytes (sampleBlockBytes 0x10080000 0x12) = .ok r ∧
      (r.data.drop 0).take 512 =
        ((paddedBlockBytes.drop 0).take 512).take 20 ++
          (le32 0 ++ (le32 2 ++
          ((((paddedBlockBytes.drop 0).take 512).drop 28).take 260 ++
          (List.replicate 220 0 ++ ((paddedBlockBytes.drop 0).take 512).drop 508)))) := by
  obtain ⟨r, hr, h⟩ := mergeUF2_base_block_bytes paddedBlockBytes
    (sampleBlockBytes 0x10080000 0x12)
    [sampleBlock 0x10000000 0xAB] [sampleBlock 0x10080000 0x12]
    (by decide) (by rfl) (by rfl) (by rfl)
  refine ⟨r, hr, ?_⟩
  have h0 := h 0 (by decide)
  simpa using h0

theorem checkSectionBounds_ok (L : List (Nat × Nat)) (n : Nat) :
    checkSectionBounds L n = .ok () ↔ ∀ s ∈ L, s.1 + s.2 ≤ n := by
  induction L with
  | nil => simp [checkSectionBounds]
  | cons s rest ih =>
      obtain ⟨off, size⟩ := s
      by_cases hb : off + size > n
      · constructor
        · intro h
          rw [checkSectionBounds, if_pos hb] at h
          exact absurd h (by simp)
        · intro h
          have := h (off, size) (by simp)
          simp at this
          omega
      · rw [checkSectionBounds, if_neg hb, ih]
        constructor
        · intro h t ht
          rcases List.mem_cons.mp ht with rfl | ht
          · simp
            omega
          · exact h t ht
        · intro h t ht
          exact h t (by simp [ht])

theorem checkSectionBounds_error (L : List (Nat × Nat)) (n : Nat)
    (h : ¬ ∀ s ∈ L, s.1 + s.2 ≤ n) :
    ∃ e, checkSectionBounds L n = .error e ∧ e.isI2 := by
  induction L with
  | nil => simp at h
  | cons s rest ih =>
      obtain ⟨off, size⟩ := s
      by_cases hb : off + size > n
      · refine ⟨.sectionOutOfBounds off size n, ?_, trivial⟩
        rw [checkSectionBounds, if_pos hb]
      · have hrest : ¬ ∀ s ∈ rest, s.1 + s.2 ≤ n := by
          intro hall
          refine h ?_
          intro t ht
          rcases List.mem_cons.mp ht with rfl | ht
          · simp
            omega
          · exact hall t ht
        obtain ⟨e, he1, he2⟩ := ih hrest
        refine ⟨e, ?_, he2⟩
        rw [checkSectionBounds, if_neg hb, he1]

theorem checkAdjacent_ok (L : List (Nat × Nat)) :
    checkAdjacent L = .ok () ↔ L.Chain' (fun a b => a.1 + a.2 ≤ b.1) := by
  match L with
  | [] => simp [checkAdjacent]
  | [a] => simp [checkAdjacent]
  | a :: b :: rest =>
      rw [List.chain'_cons]
      by_cases hb : a.1 + a.2 > b.1
      · constructor
        · intro h
          rw [checkAdjacent, if_pos hb] at h
          exact absurd h (by simp)
        · intro ⟨h1, _⟩
          omega
      · rw [checkAdjacent, if_neg hb, checkAdjacent_ok (b :: rest)]
        constructor
        · intro hc
          exact ⟨by omega, hc⟩
        · intro ⟨_, hc⟩
          exact hc

theorem checkAdjacent_error (L : List (Nat × Nat))
    (h : ¬ L.Chain' (fun a b => a.1 + a.2 ≤ b.1)) :
    ∃ e, checkAdjacent L = .error e ∧ e.isI2 := by
  match L with
  | [] => exact absurd List.chain'_nil h
  | [a] => exact absurd (List.chain'_singleton a) h
  | a :: b :: rest =>
      by_cases hb : a.1 + a.2 > b.1
      · refine ⟨.overlappingSections a.1 (a.1 + a.2) b.1, ?_, trivial⟩
        rw [checkAdjacent, if_pos hb]
      · rw [List.chain'_cons] at h
        have hrest : ¬ (b :: rest).Chain' (fun a b => a.1 + a.2 ≤ b.1) := by
          intro hc
          exact h ⟨by omega, hc⟩
        obtain ⟨e, he1, he2⟩ := checkAdjacent_error (b :: rest) hrest
        refine ⟨e, ?_, he2⟩
        rw [checkAdjacent, if_neg hb, he1]

theorem checkOverlappingSections_iff (header : DOLHeader) :
    checkOverlappingSections header = .ok () ↔
      (dolSections header).Pairwise
        (fun a b => a.1 + a.2 ≤ b.1 ∨ b.1 + b.2 ≤ a.1) := by
  have hsizes : ∀ s ∈ dolSections header, 0 < s.2 := by
    intro s hs
    simpa using List.of_mem_filter hs
  have hperm : ((dolSections header).mergeSort (fun a b => a.1 ≤ b.1)).Perm
      (dolSections header) := List.mergeSort_perm _ _
  have hsorted : ((dolSections header).mergeSort
      (fun a b => a.1 ≤ b.1)).Pairwise (fun a b => a.1 ≤ b.1) := by
    have hs := @List.sorted_mergeSort (Nat × Nat) (fun a b => a.1 ≤ b.1)
      (by intro a b c; simp; omega) (by intro a b; simp; omega) (dolSections header)
    exact List.Pairwise.imp (by simp) hs
  haveI : IsTrans (Nat × Nat) (fun a b : Nat × Nat => a.1 + a.2 ≤ b.1) :=
    ⟨fun a b c hab hbc => by omega⟩
  have hsymm : ∀ {x y : Nat × Nat},
      (fun a b : Nat × Nat => a.1 + a.2 ≤ b.1 ∨ b.1 + b.2 ≤ a.1) x y →
      (fun a b : Nat × Nat => a.1 + a.2 ≤ b.1 ∨ b.1 + b.2 ≤ a.1) y x :=
    fun h => h.symm
  unfold checkOverlappingSections
  rw [checkAdjacent_ok, List.chain'_iff_pairwise]
  constructor
  · intro hR
    refine (hperm.pairwise_iff hsymm).mp (hR.imp ?_)
    intro a b h
    exact Or.inl h
  · intro hdisj
    have hMdisj := (hperm.pairwise_iff hsymm).mpr hdisj
    refine (hsorted.and hMdisj).imp_of_mem ?_
    intro a b ha hb hab
    obtain ⟨hle, hd⟩ := hab
    have hb2 : 0 < b.2 := hsizes b (hperm.mem_iff.mp hb)
    rcases hd with h | h
    · exact h
    · omega

theorem checkOverlappingSections_error (header : DOLHeader)
    (h : ¬ (dolSections header).Pairwise
      (fun a b => a.1 + a.2 ≤ b.1 ∨ b.1 + b.2 ≤ a.1)) :
    ∃ e, checkOverlappingSections header = .error e ∧ e.isI2 := by
  have hchain : ¬ ((dolSections header).mergeSort
      (fun a b => a.1 ≤ b.1)).Chain' (fun a b => a.1 + a.2 ≤ b.1) := by
    intro hc
    refine h ?_
    have := (checkOverlappingSections_iff header).mp ?ok
    · exact this
    · unfold checkOverlappingSections
      rw [checkAdjacent_ok]
      exact hc
  exact checkAdjacent_error _ hchain

/-- C8 (amended): `validateDOL` succeeds exactly when I1, I2 and I3 all hold
and otherwise reports an error; when several invariants are violated, the
error surfaced belongs to the first violated invariant in the order I3, then
I1, then I2. -/
theorem validateDOL_spec (header : DOLHeader) (data : List Nat) :
    (validateDOL header data = .ok () ↔
      DolI1 header ∧ DolI2 header data ∧ DolI3 data) ∧
    (¬ DolI3 data → ∃ e, validateDOL header data = .error e ∧ e.isI3) ∧
    (DolI3 data → ¬ DolI1 header →
      ∃ e, validateDOL header data = .error e ∧ e.isI1) ∧
    (DolI3 data → DolI1 header → ¬ DolI2 header data →
      ∃ e, validateDOL header data = .error e ∧ e.isI2) := by
  by_cases h3 : DolI3 data
  · have hsize : ¬ data.length > DOL_MAX_SIZE := by
      unfold DolI3 at h3
      unfold DOL_MAX_SIZE
      omega
    by_cases hep : header.entryPoint = EXPECTED_ENTRY_POINT
    · by_cases hla : header.textAddresses.getD 0 0 = EXPECTED_ENTRY_POINT
      · have h1 : DolI1 header := ⟨hep, hla⟩
        have hv : validateDOL header data =
            (checkSectionBounds (dolSections header) data.length).bind
              (fun _ => checkOverlappingSections header) := by
          unfold validateDOL
          rw [if_neg hsize, if_neg (fun h => h hep), if_neg (fun h => h hla)]
          rfl
        refine ⟨?_, fun hn => absurd h3 hn, fun _ hn => absurd h1 hn, ?_⟩
        · rw [hv]
          constructor
          · intro hok
            cases hb : checkSectionBounds (dolSections header) data.length with
            | error e =>
                rw [hb] at hok
                exact absurd hok (by simp [Except.bind])
            | ok u =>
                rw [hb] at hok
                obtain ⟨⟩ := u
                have hbounds := (checkSectionBounds_ok _ _).mp hb
                have hover := (checkOverlappingSections_iff header).mp hok
                exact ⟨h1, ⟨hbounds, hover⟩, h3⟩
          · intro ⟨_, ⟨hbounds, hover⟩, _⟩
            rw [(checkSectionBounds_ok _ _).mpr hbounds]
            exact (checkOverlappingSections_iff header).mpr hover
        · intro _ _ h2
          unfold DolI2 at h2
          push_neg at h2
          by_cases hbounds : ∀ s ∈ dolSections header, s.1 + s.2 ≤ data.length
          · obtain ⟨e, he1, he2⟩ :=
              checkOverlappingSections_error header (h2 hbounds)
            refine ⟨e, ?_, he2⟩
            rw [hv, (checkSectionBounds_ok _ _).mpr hbounds]
            exact he1
          · obtain ⟨e, he1, he2⟩ := checkSectionBounds_error _ _ hbounds
            refine ⟨e, ?_, he2⟩
            rw [hv, he1]
            rfl
      · have hv : validateDOL header data =
            .error (.invalidLoadAddress (header.textAddresses.getD 0 0)) := by
          unfold validateDOL
          rw [if_neg hsize, if_neg (fun h => h hep), if_pos hla]
        refine ⟨?_, fun hn => absurd h3 hn, ?_, ?_⟩
        · rw [hv]
          constructor
          · intro h
            exact absurd h (by simp)
          · intro ⟨h1, _, _⟩
            exact absurd h1.2 hla
        · intro _ _
          exact ⟨_, hv, trivial⟩
        · intro _ h1
          exact absurd h1.2 hla
    · have hv : validateDOL header data =
          .error (.invalidEntryPoint header.entryPoint) := by
        unfold validateDOL
        rw [if_neg hsize, if_pos hep]
      refine ⟨?_, fun hn => absurd h3 hn, ?_, ?_⟩
      · rw [hv]
        constructor
        · intro h
          exact absurd h (by simp)
        · intro ⟨h1, _, _⟩
          exact absurd h1.1 hep
      · intro _ _
        exact ⟨_, hv, trivial⟩
      · intro _ h1
        exact absurd h1.1 hep
  · have hsize : data.length > DOL_MAX_SIZE := by
      unfold DolI3 at h3
      unfold DOL_MAX_SIZE
      omega
    have hv : validateDOL header data = .error (.tooLarge data.length) := by
      unfold validateDOL
      rw [if_pos hsize]
    refine ⟨?_, ?_, fun hI3 => absurd hI3 h3, fun hI3 => absurd hI3 h3⟩
    · rw [hv]
      constructor
      · intro h
        exact absurd h (by simp)
      · intro ⟨_, _, hI3⟩
        exact absurd hI3 h3
    · intro _
      exact ⟨_, hv, trivial⟩

/-- C8 counterexample: on an input violating both I1 (bad entry point) and
I3 (over 5 MiB), the first error surfaced is the I3 error (`tooLarge`), not
an I1 error, so the checks do not run in the claimed order I1, I2, I3. -/
theorem validateDOL_checks_size_first :
    validateDOL badEntryHeader (List.replicate 5242881 0) =
      .error (.tooLarge 5242881) ∧
    badEntryHeader.entryPoint ≠ 0x81300000 := by
  constructor
  · unfold validateDOL
    rw [List.length_replicate]
    norm_num [DOL_MAX_SIZE]
  · decide

theorem validateDOL_spec_witness :
    validateDOL okDolHeader (List.replicate 256 0) = .ok () ∧
    (∃ e, validateDOL badEntryHeader (List.replicate 256 0) = .error e ∧
      e.isI1) := by
  constructor
  · refine (validateDOL_spec okDolHeader (List.replicate 256 0)).1.mpr
      ⟨⟨rfl, rfl⟩, ⟨?_, ?_⟩, ?_⟩
    · intro s hs
      simp [dolSections, okDolHeader] at hs
    · have : dolSections okDolHeader = [] := by rfl
      rw [this]
      exact List.Pairwise.nil
    · show (List.replicate 256 (0 : Nat)).length ≤ 5 * 1024 * 1024
      rw [List.length_replicate]
      norm_num
  · refine (validateDOL_spec badEntryHeader (List.replicate 256 0)).2.2.1 ?_ ?_
    · show (List.replicate 256 (0 : Nat)).length ≤ 5 * 1024 * 1024
      rw [List.length_replicate]
      norm_num
    · intro h1
      exact absurd h1.1 (by decide)

/-- C10: the outcome of `validateDOL` depends only on the header record and
the byte length of the input buffer — it never inspects section contents, so
two equal-length buffers validate identically under any header. -/
theorem validateDOL_content_independent (header : DOLHeader) (d1 d2 : List Nat)
    (h : d1.length = d2.length) :
    validateDOL header d1 = validateDOL header d2 := by
  unfold validateDOL
  rw [h]

theorem validateDOL_content_independent_witness :
    validateDOL okDolHeader (List.replicate 4 0) =
      validateDOL okDolHeader [1, 2, 3, 4] :=
  validateDOL_content_independent okDolHeader (List.replicate 4 0) [1, 2, 3, 4]
    (by decide)

theorem minimalDol_length : minimalDol.length = 256 := by decide

/-- C1: the pipeline hands `wrapPayload` the already-scrambled DOL, and
`wrapPayload` scrambles again, so on a valid DOL the emitted body is the raw
DOL bytes (by involution) followed by `PICO` — not `scramble(dol)` followed
by `PICO` as the spec requires; the latter is what `wrapPayload dol` would
have produced. -/
theorem parseDOLHeader_minimalDol : parseDOLHeader minimalDol = .ok okDolHeader := by
  rfl

theorem validateDOL_minimalDol : validateDOL okDolHeader minimalDol = .ok () := by
  unfold validateDOL
  rw [if_neg (by rw [minimalDol_length]; norm_num [DOL_MAX_SIZE]),
    if_neg (fun h => h rfl), if_neg (fun h => h rfl)]
  have hsec : dolSections okDolHeader = [] := rfl
  show (checkSectionBounds (dolSections okDolHeader) minimalDol.length) >>=
    (fun _ => checkOverlappingSections okDolHeader) = .ok ()
  rw [hsec]
  rw [show checkSectionBounds [] minimalDol.length = .ok () from rfl, except_ok_bind]
  unfold checkOverlappingSections
  rw [hsec, List.mergeSort_nil]
  rfl

theorem buildWrapped_double_scrambles :
    buildWrapped minimalDol = .ok (wrapPayload (scramble minimalDol)) ∧
    (wrapPayload (scramble minimalDol)).payload =
      minimalDol ++ [0x50, 0x49, 0x43, 0x4F] ∧
    (wrapPayload minimalDol).payload =
      scramble minimalDol ++ [0x50, 0x49, 0x43, 0x4F] := by
  refine ⟨?_, ?_, ?_⟩
  · show (parseDOLHeader minimalDol) >>= (fun dolHeader =>
      (validateDOL dolHeader minimalDol) >>= (fun _ =>
        .ok (wrapPayload (scramble minimalDol)))) = _
    rw [parseDOLHeader_minimalDol, except_ok_bind, validateDOL_minimalDol,
      except_ok_bind]
  · rw [wrapPayload_payload, scramble_scramble, scramble_length, minimalDol_length]
    rfl
  · rw [wrapPayload_payload, minimalDol_length]
    rfl

theorem chunksLoop_mem_length (n : Nat) (data : List Nat) :
    ∀ c ∈ chunksLoop n data, c.length ≤ 256 := by
  induction n generalizing data with
  | zero => simp [chunksLoop]
  | succ n ih =>
      intro c hc
      rcases List.mem_cons.mp hc with rfl | hc
      · simp [List.length_take]
      · exact ih (data.drop 256) c hc

theorem mkUf2Block_length (chunk : List Nat) (addr blockNo numBlocks family : Nat)
    (h : chunk.length ≤ 256) :
    (mkUf2Block chunk addr blockNo numBlocks family).length = 512 := by
  simp [mkUf2Block, le32]
  omega

theorem flatten512_length (L : List (List Nat)) (h : ∀ c ∈ L, c.length = 512) :
    L.flatten.length = 512 * L.length := by
  induction L with
  | nil => rfl
  | cons c rest ih =>
      rw [List.flatten_cons, List.length_append, h c (by simp),
        ih (fun x hx => h x (by simp [hx]))]
      simp [Nat.mul_succ]
      omega

theorem patchLoop_flatten (L : List (List Nat)) (id : Nat)
    (h512 : ∀ c ∈ L, c.length = 512) :
    patchLoop L.length L.flatten id =
      (L.map (fun c => c.take 28 ++ (le32 id ++ c.drop 32))).flatten := by
  induction L with
  | nil => rfl
  | cons c rest ih =>
      have hc : c.length = 512 := h512 c (by simp)
      rw [List.length_cons, List.flatten_cons]
      show ((((c ++ rest.flatten).take 512).take 28 ++ (le32 id ++
          ((c ++ rest.flatten).take 512).drop 32)) ++
        patchLoop rest.length ((c ++ rest.flatten).drop 512) id) = _
      rw [List.take_left' hc, List.drop_left' hc,
        ih (fun x hx => h512 x (by simp [hx]))]
      rfl

theorem patchFamilyId_flatten (L : List (List Nat)) (id : Nat)
    (h512 : ∀ c ∈ L, c.length = 512) :
    patchFamilyId L.flatten id =
      (L.map (fun c => c.take 28 ++ (le32 id ++ c.drop 32))).flatten := by
  unfold patchFamilyId
  rw [flatten512_length L h512]
  have : (512 * L.length + 511) / 512 = L.length := by omega
  rw [this]
  exact patchLoop_flatten L id h512

theorem mkUf2Block_split (chunk : List Nat) (addr i N f : Nat) :
    mkUf2Block chunk addr i N f =
      (le32 0x0A324655 ++ (le32 0x9E5D5157 ++ (le32 0x2000 ++ (le32 addr ++
        (le32 chunk.length ++ (le32 i ++ le32 N)))))) ++ (le32 f ++
        (chunk ++ (List.replicate (476 - chunk.length) 0 ++
        le32 0x0AB16F30))) := by
  simp [mkUf2Block, List.append_assoc]

theorem patch_mkUf2Block (chunk : List Nat) (addr i N f fNew : Nat) :
    (mkUf2Block chunk addr i N f).take 28 ++ (le32 fNew ++
      (mkUf2Block chunk addr i N f).drop 32) = mkUf2Block chunk addr i N fNew := by
  have hlen28 : (le32 0x0A324655 ++ (le32 0x9E5D5157 ++ (le32 0x2000 ++
      (le32 addr ++ (le32 chunk.length ++ (le32 i ++ le32 N)))))).length = 28 := by
    simp [le32]
  have ht : (mkUf2Block chunk addr i N f).take 28 =
      le32 0x0A324655 ++ (le32 0x9E5D5157 ++ (le32 0x2000 ++ (le32 addr ++
        (le32 chunk.length ++ (le32 i ++ le32 N))))) := by
    rw [mkUf2Block_split]
    exact List.take_left' hlen28
  have hd28 : (mkUf2Block chunk addr i N f).drop 28 = le32 f ++
      (chunk ++ (List.replicate (476 - chunk.length) 0 ++ le32 0x0AB16F30)) := by
    rw [mkUf2Block_split]
    exact List.drop_left' hlen28
  have hd32 := drop_le32_tail _ _ _ 28 hd28
  norm_num at hd32
  rw [ht, hd32, mkUf2Block_split chunk addr i N fNew]

theorem convert_mem_length (data : List Nat) (base f : Nat) :
    ∀ c ∈ (chunks256 data).enum.map (fun p =>
      mkUf2Block p.2 (base + 256 * p.1) p.1 (chunks256 data).length f),
      c.length = 512 := by
  intro c hc
  obtain ⟨p, hp, rfl⟩ := List.mem_map.mp hc
  refine mkUf2Block_length _ _ _ _ _ ?_
  have hget := List.mem_enum_iff_getElem?.mp hp
  obtain ⟨hlt, hval⟩ := List.getElem?_eq_some.mp hget
  have hmem : p.2 ∈ chunks256 data := hval ▸ List.getElem_mem hlt
  exact chunksLoop_mem_length _ _ _ hmem

/-- Patching the family id of an RP2040-tagged stream yields exactly the
stream the encoder would have produced with the new tag. -/
theorem patch_convertBinToUf2 (data : List Nat) (base f fNew : Nat) :
    patchFamilyId (convertBinToUf2 data base f) fNew =
      convertBinToUf2 data base fNew := by
  unfold convertBinToUf2
  rw [patchFamilyId_flatten _ fNew (convert_mem_length data base f),
    List.map_map]
  apply congrArg List.flatten
  refine List.map_congr_left ?_
  intro p hp
  exact patch_mkUf2Block p.2 (base + 256 * p.1) p.1 (chunks256 data).length f fNew

theorem flatten512_getD (L : List (List Nat)) (h512 : ∀ c ∈ L, c.length = 512)
    (q r : Nat) (hr : r < 512) (hq : q < L.length) :
    L.flatten.getD (512 * q + r) 0 = (L.getD q []).getD r 0 := by
  induction q generalizing L with
  | zero =>
      match L, hq with
      | c :: rest, _ =>
          rw [List.flatten_cons]
          simp only [Nat.mul_zero, Nat.zero_add]
          rw [List.getD_append _ _ _ _ (by rw [h512 c (by simp)]; exact hr)]
          rfl
  | succ q ih =>
      match L, hq with
      | c :: rest, hq =>
          rw [List.flatten_cons]
          have hclen : c.length = 512 := h512 c (by simp)
          have harith : 512 * (q + 1) + r = c.length + (512 * q + r) := by
            rw [hclen]
            ring
          rw [harith, List.getD_append_right _ _ _ _ (by omega),
            Nat.add_sub_cancel_left]
          rw [ih rest (fun x hx => h512 x (by simp [hx])) (by simpa using hq)]
          rfl

theorem flatten512_drop (L : List (List Nat)) (h512 : ∀ c ∈ L, c.length = 512)
    (q : Nat) : L.flatten.drop (512 * q) = (L.drop q).flatten := by
  induction q generalizing L with
  | zero => simp
  | succ q ih =>
      match L with
      | [] => simp
      | c :: rest =>
          rw [List.flatten_cons]
          have hclen : c.length = 512 := h512 c (by simp)
          have harith : 512 * (q + 1) = c.length + 512 * q := by
            rw [hclen]
            ring
          rw [harith, ← List.drop_drop, List.drop_left,
            ih rest (fun x hx => h512 x (by simp [hx]))]
          rfl

theorem patch1_getD (c : List Nat) (id r : Nat) (hc : c.length = 512)
    (hr : r < 28 ∨ 32 ≤ r) :
    (c.take 28 ++ (le32 id ++ c.drop 32)).getD r 0 = c.getD r 0 := by
  rw [List.getD_eq_getElem?_getD, List.getD_eq_getElem?_getD]
  refine congrArg (fun o => Option.getD o 0) ?_
  have htl : (c.take 28).length = 28 := by
    rw [List.length_take]
    omega
  rcases hr with hr | hr
  · rw [List.getElem?_append, if_pos (by rw [htl]; exact hr),
      List.getElem?_take, if_pos hr]
  · rw [List.getElem?_append_right (by rw [htl]; omega), htl,
      List.getElem?_append_right (by rw [le32_length]; omega), le32_length,
      List.getElem?_drop]
    have harith : 32 + (r - 28 - 4) = r := by omega
    rw [harith]

theorem mkUf2Block_family_slice (chunk : List Nat) (addr i N f : Nat) :
    ((mkUf2Block chunk addr i N f).drop 28).take 4 = le32 f := by
  have hlen28 : (le32 0x0A324655 ++ (le32 0x9E5D5157 ++ (le32 0x2000 ++
      (le32 addr ++ (le32 chunk.length ++ (le32 i ++ le32 N)))))).length = 28 := by
    simp [le32]
  rw [mkUf2Block_split, List.drop_left' hlen28]
  exact List.take_left' (le32_length f)

theorem mkUf2Block_getD_family_indep (chunk : List Nat)
    (addr i N f fNew r : Nat) (hchunk : chunk.length ≤ 256)
    (hr : r < 28 ∨ 32 ≤ r) :
    (mkUf2Block chunk addr i N fNew).getD r 0 =
      (mkUf2Block chunk addr i N f).getD r 0 := by
  rw [← patch_mkUf2Block chunk addr i N f fNew]
  exact patch1_getD _ fNew r (mkUf2Block_length _ _ _ _ _ hchunk) hr

/-- C6: for every data buffer and base address, the RP2350 encoding is
byte-for-byte the RP2040 encoding except for the 4 bytes at offset 28 of
each 512-byte block, which hold `0xE48BFF59` little-endian where the RP2040
run holds `0xE48BFF56`; the lengths agree. -/
theorem encodeToUF2_retag (data : List Nat) (baseAddress : Nat) :
    (encodeToUF2 data ⟨.RP2350, baseAddress⟩).data.length =
      (encodeToUF2 data ⟨.RP2040, baseAddress⟩).data.length ∧
    (∀ j, j % 512 < 28 ∨ 32 ≤ j % 512 →
      (encodeToUF2 data ⟨.RP2350, baseAddress⟩).data.getD j 0 =
        (encodeToUF2 data ⟨.RP2040, baseAddress⟩).data.getD j 0) ∧
    (∀ q, 512 * q < (encodeToUF2 data ⟨.RP2040, baseAddress⟩).data.length →
      ((encodeToUF2 data ⟨.RP2040, baseAddress⟩).data.drop (512 * q + 28)).take 4 =
        le32 0xE48BFF56 ∧
      ((encodeToUF2 data ⟨.RP2350, baseAddress⟩).data.drop (512 * q + 28)).take 4 =
        le32 0xE48BFF59) := by
  have h40 : (encodeToUF2 data ⟨.RP2040, baseAddress⟩).data =
      convertBinToUf2 data baseAddress 0xE48BFF56 := rfl
  have h35 : (encodeToUF2 data ⟨.RP2350, baseAddress⟩).data =
      convertBinToUf2 data baseAddress 0xE48BFF59 := by
    show patchFamilyId (convertBinToUf2 data baseAddress (UF2_FAMILY_IDS .RP2040))
      (UF2_FAMILY_IDS .RP2350) = _
    exact patch_convertBinToUf2 data baseAddress _ _
  have hconv_len : ∀ f : Nat, (convertBinToUf2 data baseAddress f).length =
      512 * (chunks256 data).enum.length := by
    intro f
    show ((chunks256 data).enum.map _).flatten.length = _
    rw [flatten512_length _ (convert_mem_length data baseAddress f),
      List.length_map]
  have hL : ∀ f : Nat, convertBinToUf2 data baseAddress f =
      ((chunks256 data).enum.map (fun p => mkUf2Block p.2
        (baseAddress + 256 * p.1) p.1 (chunks256 data).length f)).flatten :=
    fun _ => rfl
  refine ⟨?_, ?_, ?_⟩
  · rw [h35, h40, hconv_len, hconv_len]
  · intro j hj
    rw [h35, h40]
    by_cases hjlen : j < (convertBinToUf2 data baseAddress 0xE48BFF56).length
    · have hjlen' : j < 512 * (chunks256 data).enum.length := by
        rw [← hconv_len 0xE48BFF56]
        exact hjlen
      have hq : j / 512 < (chunks256 data).enum.length := by omega
      have hq' : j / 512 < (chunks256 data).length := by
        rwa [List.enum_length] at hq
      have hj_split : 512 * (j / 512) + j % 512 = j := by omega
      have hinner : ∀ f : Nat, (List.map (fun p => mkUf2Block p.2
          (baseAddress + 256 * p.1) p.1 (chunks256 data).length f)
          (chunks256 data).enum).getD (j / 512) [] =
          mkUf2Block ((chunks256 data)[j / 512]) (baseAddress + 256 * (j / 512))
            (j / 512) (chunks256 data).length f := by
        intro f
        rw [List.getD_eq_getElem _ _ (by rwa [List.length_map]),
          List.getElem_map, List.getElem_enum]
      rw [hL 0xE48BFF56, hL 0xE48BFF59, ← hj_split]
      rw [flatten512_getD _ (convert_mem_length data baseAddress _) (j / 512)
          (j % 512) (by omega) (by rwa [List.length_map]),
        flatten512_getD _ (convert_mem_length data baseAddress _) (j / 512)
          (j % 512) (by omega) (by rwa [List.length_map])]
      rw [hinner, hinner]
      exact mkUf2Block_getD_family_indep _ _ _ _ _ _ _
        (chunksLoop_mem_length _ _ _ (List.getElem_mem hq')) hj
    · push_neg at hjlen
      have h2 : (convertBinToUf2 data baseAddress 0xE48BFF59).length ≤ j := by
        rw [hconv_len]
        rw [hconv_len] at hjlen
        exact hjlen
      rw [List.getD_eq_default _ _ h2, List.getD_eq_default _ _ hjlen]
  · intro q hq
    rw [h40] at hq
    rw [h40, h35]
    have hq' : q < (chunks256 data).enum.length := by
      rw [hconv_len] at hq
      omega
    have hslice : ∀ f : Nat,
        ((convertBinToUf2 data baseAddress f).drop (512 * q + 28)).take 4 =
          le32 f := by
      intro f
      have h512 := convert_mem_length data baseAddress f
      rw [hL f, ← List.drop_drop, flatten512_drop _ h512 q]
      have hq'' : q < ((chunks256 data).enum.map (fun p => mkUf2Block p.2
          (baseAddress + 256 * p.1) p.1 (chunks256 data).length f)).length := by
        rwa [List.length_map]
      rw [List.drop_eq_getElem_cons hq'', List.flatten_cons]
      have hblk : (((chunks256 data).enum.map (fun p => mkUf2Block p.2
          (baseAddress + 256 * p.1) p.1 (chunks256 data).length f))[q]).length
          = 512 := h512 _ (List.getElem_mem hq'')
      rw [List.drop_append_of_le_length (by rw [hblk]; norm_num),
        List.take_append_of_le_length
          (by rw [List.length_drop, hblk]; norm_num)]
      rw [List.getElem_map]
      exact mkUf2Block_family_slice _ _ _ _ f
    exact ⟨hslice 0xE48BFF56, hslice 0xE48BFF59⟩

theorem encodeToUF2_retag_witness :
    (encodeToUF2 [1, 2, 3] ⟨.RP2350, 0x10080000⟩).data.length =
      (encodeToUF2 [1, 2, 3] ⟨.RP2040, 0x10080000⟩).data.length ∧
    (encodeToUF2 [1, 2, 3] ⟨.RP2350, 0x10080000⟩).data.getD 0 0 =
      (encodeToUF2 [1, 2, 3] ⟨.RP2040, 0x10080000⟩).data.getD 0 0 ∧
    ((encodeToUF2 [1, 2, 3] ⟨.RP2040, 0x10080000⟩).data.drop 28).take 4 =
      le32 0xE48BFF56 ∧
    ((encodeToUF2 [1, 2, 3] ⟨.RP2350, 0x10080000⟩).data.drop 28).take 4 =
      le32 0xE48BFF59 := by
  obtain ⟨h1, h2, h3⟩ := encodeToUF2_retag [1, 2, 3] 0x10080000
  have hb := h2 0 (by decide)
  have hc := h3 0 (by decide)
  exact ⟨h1, hb, by simpa using hc.1, by simpa using hc.2⟩
